import Mathlib

/-!
Verification development for the `webscrapping_clubs` repository.

The extraction engine (`src/scraper_by_scl.py`, `SCLScraper.extract_club_by_scl`)
and the two batch drivers (`src/scrape_to_csv.py`, `scrape_all_to_csv`;
`scripts/scrape_range.py`, `scrape_range`) are embedded shallowly:

* Python strings are `List Char` (`Chars`); `str.lower`, `str.strip`,
  `str.split`, `in` (substring) and `str.isdigit` are re-implemented below.
* The `re.search` / `re.finditer` calls are modelled by a small backtracking
  matcher (`matchSeq` / `searchFrom`) over hand-compiled versions of the exact
  pattern strings that appear in the source.  Every pattern used by the source
  is a sequence of case-insensitive literals and bounded character-class
  repetitions with a single capture group, which the compiled `Pattern`
  structure represents faithfully (greedy and lazy quantifiers included).
* A rendered page (what Playwright hands the engine) is a `Doc`: the raw
  markup string `page.content()` plus the results of the finitely many
  DOM queries the source performs (`h1` texts, `h2` texts with their
  bounding-box `y` coordinates, the affiliation element's `y`, the fallback
  selector results, the page title, and the address spans).
* The drivers' per-key behaviour (network fetch + extraction, unexpected
  exceptions, `KeyboardInterrupt`) is an oracle `Nat → Ev`; wall-clock
  timing strings are an oracle `Nat → String`.  CSV files are lists of rows;
  the `csv` module's quoting layer is below the granularity of the claims.
-/

/-! ### Python string primitives -/

abbrev Chars := List Char

/-- Python `\s` / `str.strip` / `str.split` whitespace (ASCII part). -/
def pyWsp (c : Char) : Bool :=
  c = ' ' || c = '\t' || c = '\n' || c = '\r' || c = '\x0b' || c = '\x0c'

/-- ASCII lowercasing extended with the accented capitals that occur in the
source's French pattern literals (models Python `str.lower`). -/
def lowerChar (c : Char) : Char :=
  if 'A' ≤ c && c ≤ 'Z' then Char.ofNat (c.toNat + 32)
  else if c = 'É' then 'é' else if c = 'È' then 'è' else if c = 'Ê' then 'ê'
  else if c = 'À' then 'à' else if c = 'Â' then 'â' else if c = 'Ç' then 'ç'
  else if c = 'Ô' then 'ô' else if c = 'Î' then 'î' else if c = 'Ï' then 'ï'
  else if c = 'Û' then 'û' else if c = 'Ù' then 'ù' else if c = 'Ë' then 'ë'
  else c

/-- Python `str.lower` on a character list. -/
def lowerL (l : Chars) : Chars := l.map lowerChar

/-- Python `str.strip()`. -/
def strip (l : Chars) : Chars :=
  ((l.dropWhile pyWsp).reverse.dropWhile pyWsp).reverse

/-- Python `needle in hay` substring test. -/
def containsSeq (needle : Chars) : Chars → Bool
  | [] => needle.isEmpty
  | hay@(_ :: t) => needle.isPrefixOf hay || containsSeq needle t

/-- Python `c.isalpha()`: ASCII letters plus the accented letters that occur
on the scraped site. -/
def frAlpha (c : Char) : Bool :=
  c.isAlpha ||
    (c = 'é' || c = 'è' || c = 'ê' || c = 'à' || c = 'â' || c = 'ç' ||
     c = 'ô' || c = 'î' || c = 'ï' || c = 'û' || c = 'ù' || c = 'ë' ||
     c = 'É' || c = 'È' || c = 'Ê' || c = 'À' || c = 'Â' || c = 'Ç' ||
     c = 'Ô' || c = 'Î' || c = 'Ï' || c = 'Û' || c = 'Ù' || c = 'Ë')

/-- Word-count helper: the `Bool` records whether the previous position was a
word boundary. -/
def wordCountAux : Bool → Chars → Nat
  | _, [] => 0
  | atB, c :: t =>
    if pyWsp c then wordCountAux true t
    else (if atB then 1 else 0) + wordCountAux false t

/-- Python `len(s.split())`: number of whitespace-separated words. -/
def wordCount (l : Chars) : Nat := wordCountAux true l

/-- Numeric value of a digit string (the semantics of Python `int` on the
all-digit strings accepted by `str.isdigit`). -/
def natOfDigits (l : Chars) : Nat :=
  l.foldl (fun a c => a * 10 + (c.toNat - 48)) 0

/-- Python `int(s)` restricted to (possibly surrounded-by-space) digit
strings; any other argument raises, modelled as `none`. -/
def pyInt (s : String) : Option Nat :=
  let t := strip s.toList
  if t ≠ [] ∧ t.all Char.isDigit then some (natOfDigits t) else none

/-! ### A compiled-regex model of the source's `re.search` calls

All regular expressions in `scraper_by_scl.py` are concatenations of
literals and character-class repetitions containing exactly one capture
group; all searches pass `re.IGNORECASE`.  `PatElem` is one such atom,
`Pattern` a full expression split as prefix / capture group / suffix. -/

inductive PatElem where
  /-- A literal, matched case-insensitively (`re.IGNORECASE`). -/
  | lit (s : String)
  /-- A character-class repetition `[...]{lo,hi}` (`hi = none` = unbounded),
  lazy when `lazyQ` (`{lo,hi}?`), greedy otherwise. -/
  | cls (p : Char → Bool) (lo : Nat) (hi : Option Nat) (lazyQ : Bool)

structure Pattern where
  pre : List PatElem
  grp : List PatElem
  post : List PatElem

/-- Case-insensitive "is a prefix of" for the literal atoms. -/
def ciPre : Chars → Chars → Bool
  | [], _ => true
  | _ :: _, [] => false
  | a :: as, b :: bs => (lowerChar a = lowerChar b) && ciPre as bs

/-- Length of the maximal run of class characters at the head. -/
def runLen (p : Char → Bool) : Chars → Nat
  | [] => 0
  | c :: t => if p c then runLen p t + 1 else 0

/-- Candidate repetition counts, in the order a backtracking engine tries
them: lazy counts ascend from `lo`, greedy counts descend from the maximum. -/
def counts (lo m : Nat) (lazyQ : Bool) : List Nat :=
  let l := List.range' lo (m + 1 - lo)
  if lazyQ then l else l.reverse

/-- The backtracking matcher: match the element sequence at the head of the
input and pass the remaining input to the continuation; class repetitions
try every allowed count in engine order, which yields exactly Python's
leftmost / greedy / lazy semantics for the source's patterns. -/
def matchSeq (k : Chars → Option α) : List PatElem → Chars → Option α
  | [], s => k s
  | .lit t :: rest, s =>
    let tc := t.toList
    if ciPre tc s then matchSeq k rest (s.drop tc.length) else none
  | .cls p lo hi lz :: rest, s =>
    let m := match hi with
      | none => runLen p s
      | some h => min (runLen p s) h
    (counts lo m lz).findSome? (fun n => matchSeq k rest (s.drop n))

/-- Try the whole pattern anchored at the current position; on success
return the capture-group text and the input remaining after the match. -/
def matchAtF (pt : Pattern) (s : Chars) : Option (Chars × Chars) :=
  matchSeq (fun s1 =>
    matchSeq (fun s2 =>
      matchSeq (fun s3 =>
        some (s1.take (s1.length - s2.length), s3)) pt.post s2) pt.grp s1)
    pt.pre s

/-- Python `re.search`: leftmost match wins; returns `match.group(1)`. -/
def searchFrom (pt : Pattern) : Chars → Option Chars
  | [] => (matchAtF pt []).map Prod.fst
  | s@(_ :: t) =>
    match matchAtF pt s with
    | some r => some r.1
    | none => searchFrom pt t

/-- Python `re.search`, with the end-of-match position (for `finditer`). -/
def searchFromF (pt : Pattern) : Chars → Option (Chars × Chars)
  | [] => matchAtF pt []
  | s@(_ :: t) =>
    match matchAtF pt s with
    | some r => some r
    | none => searchFromF pt t

/-- Python `re.finditer` capture groups (non-overlapping, left to right);
fuelled by the input length, which suffices because every pattern the
source iterates begins with a non-empty literal. -/
def findIter (pt : Pattern) : Nat → Chars → List Chars
  | 0, _ => []
  | fuel + 1, s =>
    match searchFromF pt s with
    | none => []
    | some (cap, rest) =>
      cap :: (if rest.length < s.length then findIter pt fuel rest else [])

/-- All capture groups of `re.finditer(pattern, text)`. -/
def findAllCaps (pt : Pattern) (s : Chars) : List Chars :=
  findIter pt (s.length + 1) s

/-! ### Character classes and the source's pattern literals -/

/-- `[:\s]`. -/
def colonWsp (c : Char) : Bool := c = ':' || pyWsp c

/-- `[°\s]`. -/
def degWsp (c : Char) : Bool := c = '°' || pyWsp c

/-- `[a-zA-Z0-9._-]`. -/
def emailLocalCh (c : Char) : Bool :=
  c.isAlpha || c.isDigit || c = '.' || c = '_' || c = '-'

/-- `[a-zA-Z0-9.-]`. -/
def emailHostCh (c : Char) : Bool := c.isAlpha || c.isDigit || c = '.' || c = '-'

/-- `[^\s<>]`. -/
def nonSpAngle (c : Char) : Bool := !(pyWsp c || c = '<' || c = '>')

/-- `[0-9\s\.\-\(\)]`. -/
def phoneCh (c : Char) : Bool :=
  c.isDigit || pyWsp c || c = '.' || c = '-' || c = '(' || c = ')'

/-- `[A-Z\s\.\-\']` under `re.IGNORECASE` (so `[A-Z]` also takes `[a-z]`). -/
def nameCh (c : Char) : Bool :=
  c.isAlpha || pyWsp c || c = '.' || c = '-' || c = Char.ofNat 39

/-- `[^>]`. -/
def notGt (c : Char) : Bool := c ≠ '>'

/-- `[^<]`. -/
def notLt (c : Char) : Bool := c ≠ '<'

/-- `[^<\n]`. -/
def notLtNl (c : Char) : Bool := !(c = '<' || c = '\n')

/-- `.` without `re.DOTALL`. -/
def notNl (c : Char) : Bool := c ≠ '\n'

/-- `re.search(r'N[°\s]*affiliation[:\s]*(\d+)', page_text, re.IGNORECASE)` —
the affiliation-number marker, the engine's primary existence signal. -/
def affilPat : Pattern :=
  { pre := [.lit "N", .cls degWsp 0 none false, .lit "affiliation",
            .cls colonWsp 0 none false]
    grp := [.cls Char.isDigit 1 none false]
    post := [] }

/-- The email capture group `([a-zA-Z0-9._-]+@[a-zA-Z0-9.-]+\.[a-zA-Z]{2,})`. -/
def emailGrp : List PatElem :=
  [.cls emailLocalCh 1 none false, .lit "@", .cls emailHostCh 1 none false,
   .lit ".", .cls Char.isAlpha 2 none false]

/-- The loose email capture group `([^\s<>]+@[^\s<>]+)`. -/
def emailLooseGrp : List PatElem :=
  [.cls nonSpAngle 1 none false, .lit "@", .cls nonSpAngle 1 none false]

/-- `Email <kind>[:\s]*(email)`. -/
def emailPlainPat (kind : String) : Pattern :=
  { pre := [.lit ("Email " ++ kind), .cls colonWsp 0 none false]
    grp := emailGrp, post := [] }

/-- `<b>Email <kind></b>\s*:\s*(email)`. -/
def emailBoldPat (kind : String) : Pattern :=
  { pre := [.lit ("<b>Email " ++ kind ++ "</b>"), .cls pyWsp 0 none false,
            .lit ":", .cls pyWsp 0 none false]
    grp := emailGrp, post := [] }

/-- `Email <kind>[:\s]*([^\s<>]+@[^\s<>]+)`. -/
def emailLoosePat (kind : String) : Pattern :=
  { pre := [.lit ("Email " ++ kind), .cls colonWsp 0 none false]
    grp := emailLooseGrp, post := [] }

/-- `email_patterns_principal` (three variants, priority 1). -/
def emailPatternsPrincipal : List Pattern :=
  [emailPlainPat "principal", emailBoldPat "principal", emailLoosePat "principal"]

/-- `email_patterns_officiel` (two variants, priority 2). -/
def emailPatternsOfficiel : List Pattern :=
  [emailPlainPat "officiel", emailBoldPat "officiel"]

/-- `email_patterns_autre` (three variants, priority 3). -/
def emailPatternsAutre : List Pattern :=
  [emailPlainPat "autre", emailBoldPat "autre", emailLoosePat "autre"]

/-- `<label>\s*:\s*([0-9\s\.\-\(\)]{6,})`. -/
def phonePlainPat (label : String) : Pattern :=
  { pre := [.lit label, .cls pyWsp 0 none false, .lit ":", .cls pyWsp 0 none false]
    grp := [.cls phoneCh 6 none false], post := [] }

/-- `<b><label></b>\s*:\s*([0-9\s\.\-\(\)]{6,})`. -/
def phoneBoldPat (label : String) : Pattern :=
  { pre := [.lit ("<b>" ++ label ++ "</b>"), .cls pyWsp 0 none false,
            .lit ":", .cls pyWsp 0 none false]
    grp := [.cls phoneCh 6 none false], post := [] }

/-- `<label>[:\s]+([0-9\s\.\-\(\)]{6,})`. -/
def phoneLoosePat (label : String) : Pattern :=
  { pre := [.lit label, .cls colonWsp 1 none false]
    grp := [.cls phoneCh 6 none false], post := [] }

/-- `phone_patterns_travail` (priority 1). -/
def phonePatternsTravail : List Pattern :=
  [phonePlainPat "Téléphone travail", phoneBoldPat "Téléphone travail",
   phoneLoosePat "Téléphone travail"]

/-- `phone_patterns_domicile` (priority 2). -/
def phonePatternsDomicile : List Pattern :=
  [phonePlainPat "Téléphone domicile", phoneBoldPat "Téléphone domicile",
   phoneLoosePat "Téléphone domicile"]

/-- `phone_patterns_mobile` (priority 3). -/
def phonePatternsMobile : List Pattern :=
  [phonePlainPat "Mobile personnel", phoneBoldPat "Mobile personnel",
   phoneLoosePat "Mobile personnel"]

/-- `phone_patterns_autre` (priority 4, iterated with `finditer`). -/
def phonePatternsAutre : List Pattern :=
  [phonePlainPat "Téléphone autre", phoneBoldPat "Téléphone autre",
   phoneLoosePat "Téléphone autre"]

/-- `phone_patterns_generic` (priority 5, only when nothing else matched). -/
def phonePatternsGeneric : List Pattern :=
  [phonePlainPat "Téléphone", phonePlainPat "Tel"]

/-- Name pattern 1:
`<h1[^>]*>([A-Z][A-Z\s\.\-\']{5,80}?)</h1>\s*<h2[^>]*>N[°\s]*affiliation`. -/
def nomPat1 : Pattern :=
  { pre := [.lit "<h1", .cls notGt 0 none false, .lit ">"]
    grp := [.cls Char.isAlpha 1 (some 1) false, .cls nameCh 5 (some 80) true]
    post := [.lit "</h1>", .cls pyWsp 0 none false, .lit "<h2",
             .cls notGt 0 none false, .lit ">", .lit "N",
             .cls degWsp 0 none false, .lit "affiliation"] }

/-- Name pattern 2:
`<h2[^>]*>([A-Z][A-Z\s\.\-\']{5,80}?)</h2>\s*N[°\s]*affiliation[:\s]*\d+`. -/
def nomPat2 : Pattern :=
  { pre := [.lit "<h2", .cls notGt 0 none false, .lit ">"]
    grp := [.cls Char.isAlpha 1 (some 1) false, .cls nameCh 5 (some 80) true]
    post := [.lit "</h2>", .cls pyWsp 0 none false, .lit "N",
             .cls degWsp 0 none false, .lit "affiliation",
             .cls colonWsp 0 none false, .cls Char.isDigit 1 none false] }

/-- Name pattern 3:
`([A-Z][A-Z\s\.\-\']{5,80}?)\s*N[°\s]*affiliation[:\s]*\d+`. -/
def nomPat3 : Pattern :=
  { pre := []
    grp := [.cls Char.isAlpha 1 (some 1) false, .cls nameCh 5 (some 80) true]
    post := [.cls pyWsp 0 none false, .lit "N", .cls degWsp 0 none false,
             .lit "affiliation", .cls colonWsp 0 none false,
             .cls Char.isDigit 1 none false] }

/-- `nom_patterns`, in source order. -/
def nomPatterns : List Pattern := [nomPat1, nomPat2, nomPat3]

/-- Address pattern 1: `<b>Adresse\s*:</b>\s*<span[^>]*>([^<]+)</span>`. -/
def addrPat1 : Pattern :=
  { pre := [.lit "<b>Adresse", .cls pyWsp 0 none false, .lit ":</b>",
            .cls pyWsp 0 none false, .lit "<span", .cls notGt 0 none false,
            .lit ">"]
    grp := [.cls notLt 1 none false]
    post := [.lit "</span>"] }

/-- Address pattern 2:
`Adresse\s*:\s*([^<\n]+(?:-\s*\d{5}\s*-\s*[A-Z\s]+)?)`.  The optional
postcode tail is made of `[^<\n]` characters, so the greedy `[^<\n]+`
followed by an optional suffix captures exactly the maximal `[^<\n]` run;
the compiled form states that directly. -/
def addrPat2 : Pattern :=
  { pre := [.lit "Adresse", .cls pyWsp 0 none false, .lit ":",
            .cls pyWsp 0 none false]
    grp := [.cls notLtNl 1 none false]
    post := [] }

/-- Address pattern 3: `Siège social[:\s]*([^<]+)`. -/
def addrPat3 : Pattern :=
  { pre := [.lit "Siège social", .cls colonWsp 0 none false]
    grp := [.cls notLt 1 none false]
    post := [] }

/-- `address_patterns`, in source order. -/
def addrPatterns : List Pattern := [addrPat1, addrPat2, addrPat3]

/-- `re.search(r'Adresse\s*:\s*(.+)', text, re.IGNORECASE)` (no DOTALL) used
inside the address-span scan. -/
def addrInlinePat : Pattern :=
  { pre := [.lit "Adresse", .cls pyWsp 0 none false, .lit ":",
            .cls pyWsp 0 none false]
    grp := [.cls notNl 1 none false]
    post := [] }

/-! ### The rendered page and the extracted record -/

/-- One rendered page, as `extract_club_by_scl` observes it: the raw markup
`self.page.content()` plus the results of every DOM query the source makes. -/
structure Doc where
  /-- `self.page.content()`. -/
  pageText : String
  /-- Inner texts of `query_selector_all('app-club h1, .club-title h1, h1')`. -/
  h1Texts : List String
  /-- `y` of `query_selector('text=/N[°\s]*affiliation/i').bounding_box()`,
  `none` when the element or its box is missing. -/
  affilBoxY : Option Int
  /-- `query_selector_all('h2')`: bounding-box `y` (if any) and inner text. -/
  h2Elems : List (Option Int × String)
  /-- Element inner texts per fallback selector, in the source's selector
  order (`h1:not(...)`, `[class*="club-name"]`, `[class*="name-club"]`,
  `strong`). -/
  selTexts : List (List String)
  /-- `self.page.title()`. -/
  title : String
  /-- Inner text of `query_selector('.txt-map-siege b:contains("Adresse") + span')`. -/
  addrSpanText : Option String
  /-- Inner texts of `query_selector_all('.txt-map-siege span')`. -/
  addrSpans : List String
deriving DecidableEq

/-- The `ClubData` dataclass. -/
structure ClubData where
  nom : String
  numero_affiliation : Option String := none
  email : Option String := none
  telephone : Option String := none
  adresse : Option String := none
  url_detail : Option String := none
  email_officiel : Option String := none
  email_principal : Option String := none
deriving DecidableEq

/-! ### Name-derivation strategies -/

/-- Navigation words excluded in the h1 strategy. -/
def excludedWordsH1 : List String :=
  ["accueil", "gironde", "paris", "ensemble", "écrivons"]

/-- The h1 strategy's exclusion filter on the lowercased candidate:
navigation words, then `district de la` / `district de` without
`club district`, then the unconditional `club ligue` rescue. -/
def exclH1 (tl : Chars) : Bool :=
  let e := excludedWordsH1.any (fun w => containsSeq w.toList tl)
  let e := e ||
    (containsSeq "district de la".toList tl ||
      (containsSeq "district de".toList tl &&
        !containsSeq "club district".toList tl))
  if containsSeq "club ligue".toList tl then false else e

/-- The h1 strategy's acceptance test (`text and len > 5 and len < 100 and
not is_excluded and any isalpha`). -/
def acceptH1 (t : Chars) : Bool :=
  !t.isEmpty && decide (5 < t.length) && decide (t.length < 100) &&
    !exclH1 (lowerL t) && t.any frAlpha

/-- Strategy 1: first accepted h1 heading. -/
def strat1 (d : Doc) : Option Chars :=
  d.h1Texts.findSome? (fun s =>
    let t := strip s.toList
    if acceptH1 t then some t else none)

/-- Navigation words excluded in the raw-markup regex strategy. -/
def excludedWords2 : List String :=
  ["accueil", "gironde", "paris", "ensemble", "écrivons", "résultats",
   "calendrier"]

/-- The `district de la` / `district de` context test of the regex strategy
(only consulted for the word `district`, which the word list does not
contain). -/
def districtCond2 (tl : Chars) : Bool :=
  containsSeq "district de la".toList tl ||
    (containsSeq "district de".toList tl &&
      !containsSeq "club district".toList tl)

/-- The regex strategy's exclusion filter: a listed word present in the
candidate excludes it (for `district` only under `districtCond2`). -/
def excl2 (tl : Chars) : Bool :=
  excludedWords2.any (fun w =>
    containsSeq w.toList tl && (w ≠ "district" || districtCond2 tl))

/-- The regex strategy's acceptance test, including the
multi-word-or-longer-than-8 condition. -/
def accept2 (t : Chars) : Bool :=
  decide (5 < t.length) && decide (t.length < 100) && !excl2 (lowerL t) &&
    t.any frAlpha && (decide (1 < wordCount t) || decide (8 < t.length))

/-- Strategy 2: first `nom_patterns` regex whose stripped capture passes
the filter (a match failing the filter falls through to the next pattern). -/
def strat2 (pageText : String) : Option Chars :=
  nomPatterns.findSome? (fun pt =>
    match searchFrom pt pageText.toList with
    | none => none
    | some g =>
      let p := strip g
      if accept2 p then some p else none)

/-- Navigation words excluded in the proximity strategy (note `ligue` is in
this list and there is no `club ligue` rescue here). -/
def excludedWordsProx : List String :=
  ["accueil", "ligue", "gironde", "paris", "ensemble", "écrivons",
   "résultats", "calendrier", "équipes", "staff", "terrains", "siège social"]

/-- The proximity strategy's exclusion filter. -/
def exclProx (tl : Chars) : Bool :=
  let e := excludedWordsProx.any (fun w => containsSeq w.toList tl)
  if (containsSeq "district de la".toList tl ||
      containsSeq "district de".toList tl) &&
      !containsSeq "club district".toList tl then true else e

/-- The proximity strategy's acceptance test. -/
def acceptProx (t : Chars) : Bool :=
  !t.isEmpty && decide (5 < t.length) && decide (t.length < 100) &&
    !exclProx (lowerL t) && t.any frAlpha &&
    (decide (1 < wordCount t) || decide (8 < t.length))

/-- The closest h2 strictly above the affiliation element within 300px
(first element wins ties, matching the strict `<` on the distance). -/
def closestH2Go (affilY : Int) :
    List (Option Int × String) → Option (Int × String) → Option (Int × String)
  | [], best => best
  | (oy, t) :: rest, best =>
    match oy with
    | none => closestH2Go affilY rest best
    | some y =>
      if y < affilY ∧ affilY - y < 300 then
        let dist := affilY - y
        match best with
        | none => closestH2Go affilY rest (some (dist, t))
        | some (bd, bt) =>
          if dist < bd then closestH2Go affilY rest (some (dist, t))
          else closestH2Go affilY rest (some (bd, bt))
      else closestH2Go affilY rest best

/-- Strategy 3 (proximity): the h2 closest above the affiliation marker. -/
def stratProx (d : Doc) : Option Chars :=
  match d.affilBoxY with
  | none => none
  | some ay =>
    match closestH2Go ay d.h2Elems none with
    | none => none
    | some r =>
      let tc := strip r.2.toList
      if acceptProx tc then some tc else none

/-- Navigation words excluded in the plain h2 scan. -/
def excludedWordsH2 : List String :=
  ["accueil", "ligue", "gironde", "paris", "ensemble", "écrivons",
   "n°affiliation", "résultats", "calendrier", "équipes", "staff",
   "terrains", "siège social", "installations", "rencontres", "prochaines",
   "dernières"]

/-- The h2-scan exclusion filter. -/
def exclH2 (tl : Chars) : Bool :=
  excludedWordsH2.any (fun w => containsSeq w.toList tl) ||
    (containsSeq "district de la".toList tl ||
      (containsSeq "district de".toList tl &&
        !containsSeq "club district".toList tl))

/-- The h2-scan acceptance test. -/
def acceptH2 (t : Chars) : Bool :=
  !t.isEmpty && decide (5 < t.length) && decide (t.length < 100) &&
    !exclH2 (lowerL t) && t.any frAlpha &&
    (decide (1 < wordCount t) || decide (8 < t.length))

/-- Strategy 4: first accepted h2, positional information ignored. -/
def stratH2 (d : Doc) : Option Chars :=
  d.h2Elems.findSome? (fun e =>
    let t := strip e.2.toList
    if acceptH2 t then some t else none)

/-- Navigation words excluded in the fallback-selector scan. -/
def excludedWordsSel : List String :=
  ["accueil", "ligue", "gironde", "paris", "ensemble", "écrivons",
   "résultats", "calendrier", "équipes", "staff", "terrains", "siège social"]

/-- The fallback-selector exclusion filter. -/
def exclSel (tl : Chars) : Bool :=
  excludedWordsSel.any (fun w => containsSeq w.toList tl) ||
    (containsSeq "district de la".toList tl ||
      (containsSeq "district de".toList tl &&
        !containsSeq "club district".toList tl))

/-- The fallback-selector acceptance test. -/
def acceptSel (t : Chars) : Bool :=
  !t.isEmpty && decide (5 < t.length) && decide (t.length < 100) &&
    !exclSel (lowerL t) && t.any frAlpha &&
    (decide (1 < wordCount t) || decide (8 < t.length))

/-- Strategy 5: first accepted element over the four fallback selectors. -/
def stratSel (d : Doc) : Option Chars :=
  d.selTexts.findSome? (fun elems =>
    elems.findSome? (fun s =>
      let t := strip s.toList
      if acceptSel t then some t else none))

/-- The page-title acceptance test: only a length bound and the absence of
`recherche` / `district` (no letter, upper-bound or multi-word condition). -/
def acceptTitle (t : Chars) : Bool :=
  decide (5 < t.length) &&
    !containsSeq "recherche".toList (lowerL t) &&
    !containsSeq "district".toList (lowerL t)

/-- Strategy 6: the page title up to the first `|` or `-` separator
(`re.split(r'[|\-]', title)[0]`), stripped. -/
def stratTitle (d : Doc) : Option Chars :=
  if d.title ≠ "" then
    let p := strip (d.title.toList.takeWhile (fun c => !(c = '|' || c = '-')))
    if acceptTitle p then some p else none
  else none

/-- The full ordered name derivation (strategies stop at the first
accepted value; a strategy whose candidate fails its filter yields `none`
and the next strategy runs). -/
def deriveName (d : Doc) : Option Chars :=
  ((((strat1 d).orElse (fun _ => strat2 d.pageText)).orElse
      (fun _ => stratProx d)).orElse
    (fun _ => stratH2 d)).orElse
  (fun _ => (stratSel d).orElse (fun _ => stratTitle d))

/-! ### Email, phone and address extraction -/

/-- One labelled email category: first pattern variant with a match wins,
and the capture is stripped (`match.group(1).strip()`). -/
def emailCat (pats : List Pattern) (text : Chars) : Option Chars :=
  pats.findSome? (fun pt => (searchFrom pt text).map strip)

/-- The `Email autre` category: the capture may be a comma-separated list,
of which only the first token is kept
(`match.group(1).strip().split(',')[0].strip()`). -/
def emailAutreOf (text : Chars) : Option Chars :=
  (emailPatternsAutre.findSome? (fun pt => searchFrom pt text)).map
    (fun g => strip ((strip g).takeWhile (fun c => c ≠ ',')))

/-- `email = email_principal or email_officiel or email_autre`. -/
def extractEmail (text : Chars) : Option Chars :=
  ((emailCat emailPatternsPrincipal text).orElse
    (fun _ => emailCat emailPatternsOfficiel text)).orElse
  (fun _ => emailAutreOf text)

/-- `re.sub(r'[^\d]', '', match.group(1).strip())`. -/
def phoneClean (raw : Chars) : Chars := (strip raw).filter Char.isDigit

/-- One labelled phone category: per pattern variant, a match is accepted
only if its digit normalization has at least 6 digits; an unacceptable
match falls through to the next variant. -/
def phoneCat (pats : List Pattern) (text : Chars) : Option Chars :=
  pats.findSome? (fun pt =>
    match searchFrom pt text with
    | none => none
    | some raw =>
      let c := phoneClean raw
      if 6 ≤ c.length then some c else none)

/-- The `Téléphone autre` category: `finditer` per pattern variant, taking
the first occurrence whose normalization has at least 6 digits. -/
def phoneIterCat (pats : List Pattern) (text : Chars) : Option Chars :=
  pats.findSome? (fun pt =>
    (findAllCaps pt text).findSome? (fun raw =>
      let c := phoneClean raw
      if 6 ≤ c.length then some c else none))

/-- The full phone extraction: work, home, mobile, other; the generic
`Téléphone` / `Tel` label is consulted only when all four categories
found nothing, and its result lands in the `autre` slot before the
coalesce `travail or domicile or mobile or autre`. -/
def extractPhone (text : Chars) : Option Chars :=
  let t := phoneCat phonePatternsTravail text
  let d := phoneCat phonePatternsDomicile text
  let m := phoneCat phonePatternsMobile text
  let a := phoneIterCat phonePatternsAutre text
  let a := if t.isNone && d.isNone && m.isNone && a.isNone then
    phoneCat phonePatternsGeneric text else a
  ((t.orElse (fun _ => d)).orElse (fun _ => m)).orElse (fun _ => a)

/-- Scan to the character after the first `>`. -/
def goGt : Chars → Option Chars
  | [] => none
  | '>' :: t => some t
  | _ :: t => goGt t

/-- Drop one `<[^>]+>` tag head (the chars after a `<`): needs at least one
non-`>` character before the closing `>`. -/
def dropTag : Chars → Option Chars
  | [] => none
  | '>' :: _ => none
  | _ :: t => goGt t

/-- Fuelled worker for `re.sub(r'<[^>]+>', '', s)`; each step consumes at
least one character, so fuel = input length suffices. -/
def stripTagsF : Nat → Chars → Chars
  | 0, l => l
  | _ + 1, [] => []
  | f + 1, '<' :: rest =>
    (match dropTag rest with
     | some r => stripTagsF f r
     | none => '<' :: stripTagsF f rest)
  | f + 1, c :: rest => c :: stripTagsF f rest

/-- `re.sub(r'<[^>]+>', '', s)`. -/
def stripTags (l : Chars) : Chars := stripTagsF l.length l

/-- `re.sub(r'\s+', ' ', s)`. -/
def collapseWs : Chars → Chars
  | [] => []
  | c :: t =>
    let r := collapseWs t
    if pyWsp c then
      match r with
      | ' ' :: _ => r
      | _ => ' ' :: r
    else c :: r

/-- The raw-markup address fallback: each matching pattern overwrites the
candidate (tags stripped, stripped, whitespace collapsed); the loop stops
only when the candidate exceeds 10 characters, otherwise the last
assignment survives. -/
def addrFromPats : List Pattern → Chars → Option Chars → Option Chars
  | [], _, acc => acc
  | pt :: rest, text, acc =>
    match searchFrom pt text with
    | none => addrFromPats rest text acc
    | some g =>
      let a := collapseWs (strip (stripTags g))
      if 10 < a.length then some a else addrFromPats rest text (some a)

/-- Full address extraction: the structured `.txt-map-siege` lookup (direct
sibling span, else the first ten spans), falling back to the raw-markup
patterns when the structured result is missing or empty (Python's
`if not adresse`). -/
def extractAddress (d : Doc) : Option Chars :=
  let a1 : Option Chars :=
    match d.addrSpanText with
    | some t => some (strip t.toList)
    | none =>
      (d.addrSpans.take 10).findSome? (fun t =>
        let tc := strip t.toList
        if containsSeq "adresse".toList (lowerL tc) && decide (15 < tc.length)
        then (searchFrom addrInlinePat tc).map strip
        else none)
  match a1 with
  | some s =>
    if s.isEmpty then addrFromPats addrPatterns d.pageText.toList none
    else some s
  | none => addrFromPats addrPatterns d.pageText.toList none

/-! ### The extraction engine -/

/-- `SCLScraper.extract_club_by_scl`, from the point where the rendered
markup is available.  Fetch-level failures (timeout twice, or any session
exception) return `None` before this logic runs and are part of the
drivers' per-key oracle, not of the markup-level engine. -/
def extract_club_by_scl (d : Doc) (scl : Nat) (base_url : String) :
    Option ClubData :=
  let url := base_url ++ "/recherche-clubs?scl=" ++ toString scl
  match (searchFrom affilPat d.pageText.toList).map String.mk with
  | none => none
  | some numero =>
    match (deriveName d).map String.mk with
    | none => none
    | some nom =>
      let club : ClubData :=
        { nom := nom
          numero_affiliation := some numero
          email := (extractEmail d.pageText.toList).map String.mk
          telephone := (extractPhone d.pageText.toList).map String.mk
          adresse := (extractAddress d).map String.mk
          url_detail := some url
          email_officiel :=
            (emailCat emailPatternsOfficiel d.pageText.toList).map String.mk
          email_principal :=
            (emailCat emailPatternsPrincipal d.pageText.toList).map String.mk }
      if numero = "0" then some club
      else if numero = "" then none
      else some club

/-! ### The per-key oracle shared by both drivers -/

/-- What one iteration of a driver's key loop observes for a key:
`extract_club_by_scl` returned a club or `None` (`ok`), raised an
unexpected exception (`err`), or a `KeyboardInterrupt` arrived (`intr`). -/
inductive Ev where
  | ok (c : Option ClubData)
  | err
  | intr
deriving DecidableEq

/-- Python `range(a, b + 1)`. -/
def keyRange (a b : Nat) : List Nat := List.range' a (b + 1 - a)

/-! ### `scripts/scrape_range.py` — overwrite-by-key mode -/

/-- One CSV row of the overwrite-mode output (the `DictWriter` fieldnames). -/
structure Row where
  scl : String
  nom : String
  numero_affiliation : String
  email : String
  telephone : String
  adresse : String
  url_detail : String
  temps_extraction : String
deriving DecidableEq

/-- The overwrite-mode header (`fieldnames` in `scrape_range`). -/
def fieldNames : List String :=
  ["scl", "nom", "numero_affiliation", "email", "telephone", "adresse",
   "url_detail", "temps_extraction"]

/-- The row written for a found club (`all_data[scl] = {...}` with
`or ''` defaults). -/
def clubRow (scl : Nat) (c : ClubData) (t : String) : Row :=
  { scl := toString scl
    nom := c.nom
    numero_affiliation := c.numero_affiliation.getD ""
    email := c.email.getD ""
    telephone := c.telephone.getD ""
    adresse := c.adresse.getD ""
    url_detail := c.url_detail.getD ""
    temps_extraction := t }

/-- The confirmed-absent placeholder row (`scl` present, all data fields
empty). -/
def emptyRow (scl : Nat) (t : String) : Row :=
  { scl := toString scl, nom := "", numero_affiliation := "", email := ""
    telephone := "", adresse := "", url_detail := "", temps_extraction := t }

/-- Python `dict` update on an association list keyed by the scl number:
replace in place, else append (insertion order preserved). -/
def dinsert : List (Nat × Row) → Nat → Row → List (Nat × Row)
  | [], k, v => [(k, v)]
  | (k1, v1) :: t, k, v =>
    if k1 = k then (k, v) :: t else (k1, v1) :: dinsert t k v

/-- Lookup in the association list (`all_data[key]`). -/
def getRow : List (Nat × Row) → Nat → Option Row
  | [], _ => none
  | (k1, v) :: t, k => if k = k1 then some v else getRow t k

/-- `existing_data`: rows of the pre-existing CSV whose `scl` strips to a
non-empty digit string, keyed by its integer value; later rows overwrite
earlier ones exactly as repeated `dict` assignment does. -/
def loadExisting (rows : List Row) : List (Nat × Row) :=
  rows.foldl (fun m r =>
    let key := strip r.scl.toList
    if key ≠ [] ∧ key.all Char.isDigit then dinsert m (natOfDigits key) r
    else m) []

/-- The row a key's completed iteration stores into `all_data`. -/
def newRowFor (ev : Nat → Ev) (tm : Nat → String) (k : Nat) : Row :=
  match ev k with
  | .ok (some c) => clubRow k c (tm k)
  | _ => emptyRow k (tm k)

/-- The main loop of `scrape_range`: per key, a found club or the empty
placeholder overwrites the map entry; an unexpected exception leaves the
map untouched and continues; a `KeyboardInterrupt` breaks out. -/
def stepKeys (ev : Nat → Ev) (tm : Nat → String) :
    List Nat → List (Nat × Row) → List (Nat × Row)
  | [], m => m
  | k :: ks, m =>
    match ev k with
    | .intr => m
    | .err => stepKeys ev tm ks m
    | .ok _ => stepKeys ev tm ks (dinsert m k (newRowFor ev tm k))

/-- `for scl_key in sorted(all_data.keys()): writer.writerow(...)` — with
unique keys, iterating the sorted keys is sorting the entries by key. -/
def outputRows (m : List (Nat × Row)) : List (Nat × Row) :=
  List.insertionSort (fun p q => p.1 ≤ q.1) m

/-- `scrape_range(start_scl, end_scl)`: header plus the full rewritten
table (merged map of prior rows and this run's results, sorted by key). -/
def scrape_range (prior : List Row) (a b : Nat) (ev : Nat → Ev)
    (tm : Nat → String) : List String × List (Nat × Row) :=
  (fieldNames, outputRows (stepKeys ev tm (keyRange a b) (loadExisting prior)))

/-- The keys of a run that complete normally (found or confirmed absent):
everything up to the first interrupt, minus error keys. -/
def processedOk (ev : Nat → Ev) : List Nat → List Nat
  | [] => []
  | k :: ks =>
    match ev k with
    | .intr => []
    | .err => processedOk ev ks
    | .ok _ => k :: processedOk ev ks

/-! ### `src/scrape_to_csv.py` — append mode with resume -/

/-- One CSV row of the append-mode output (no `temps_extraction` column). -/
structure RowC where
  scl : String
  nom : String
  numero_affiliation : String
  email : String
  telephone : String
  adresse : String
  url_detail : String
deriving DecidableEq

/-- The row `scrape_all_to_csv` writes for a found club. -/
def clubRowC (scl : Nat) (c : ClubData) : RowC :=
  { scl := toString scl
    nom := c.nom
    numero_affiliation := c.numero_affiliation.getD ""
    email := c.email.getD ""
    telephone := c.telephone.getD ""
    adresse := c.adresse.getD ""
    url_detail := c.url_detail.getD "" }

/-- Set insertion for `existing_scls` (a Python `set` of naturals). -/
def insertSet (n : Nat) (s : List Nat) : List Nat :=
  if n ∈ s then s else n :: s

/-- The resume scan `for row in reader: if row.get('scl'):
existing_scls.add(int(row['scl']))`: a non-integer `scl` raises inside the
loop, keeping the keys added so far (`false` flag = the `except` path). -/
def scanScls : List RowC → List Nat → List Nat × Bool
  | [], acc => (acc, true)
  | r :: rs, acc =>
    if r.scl = "" then scanScls rs acc
    else
      match pyInt r.scl with
      | some n => scanScls rs (insertSet n acc)
      | none => (acc, false)

/-- Python `max` over the non-empty key set. -/
def listMax (l : List Nat) : Nat := l.foldl max 0

/-- Resume-point computation: only a run whose `resume_from` is the
default `1` reads the existing file; a successful scan of a non-empty key
set moves `resume_from` to `max + 1`; a failed scan leaves it at `1`
(with the partially built key set kept, as in the source); an explicit
`resume_from ≠ 1` skips the scan entirely. -/
def resumeCompute (fileRows : Option (List RowC)) (resume_from : Nat) :
    List Nat × Nat :=
  match fileRows with
  | none => ([], resume_from)
  | some rows =>
    if resume_from = 1 then
      let sc := scanScls rows []
      if sc.2 ∧ sc.1 ≠ [] then (sc.1, listMax sc.1 + 1) else (sc.1, resume_from)
    else ([], resume_from)

/-- The append-mode key loop: keys already in `existing_scls` are skipped
before any fetch; a found club appends a row (flushed at once); `None`
writes nothing; an exception continues; an interrupt returns immediately.
Returns (rows written, keys fetched, interrupted?).  The batch windows of
the source only group the same flat iteration for progress printing. -/
def runCsv (ev : Nat → Ev) (existing : List Nat) :
    List Nat → List (Nat × RowC) × List Nat × Bool
  | [] => ([], [], false)
  | k :: ks =>
    if k ∈ existing then runCsv ev existing ks
    else
      match ev k with
      | .intr => ([], [k], true)
      | .err =>
        let r := runCsv ev existing ks
        (r.1, k :: r.2.1, r.2.2)
      | .ok none =>
        let r := runCsv ev existing ks
        (r.1, k :: r.2.1, r.2.2)
      | .ok (some c) =>
        let r := runCsv ev existing ks
        ((k, clubRowC k c) :: r.1, k :: r.2.1, r.2.2)

/-- The observable outcome of one `scrape_all_to_csv` run. -/
structure CsvRun where
  /-- `existing_scls` after the resume scan. -/
  existing : List Nat
  /-- The effective `resume_from`. -/
  resumePoint : Nat
  /-- `mode = 'a'` (file existed and some keys were read back). -/
  appendMode : Bool
  /-- Rows written by this run, in write order, keyed by their scl. -/
  rows : List (Nat × RowC)
  /-- Keys for which `extract_club_by_scl` was invoked. -/
  fetched : List Nat
  /-- Whether the run ended in the `KeyboardInterrupt` return. -/
  interrupted : Bool
deriving DecidableEq

/-- `scrape_all_to_csv(max_scl, output_file, resume_from)`:
`fileRows = none` models a missing output file. -/
def scrape_all_to_csv (fileRows : Option (List RowC)) (max_scl : Nat)
    (resume_from : Nat) (ev : Nat → Ev) : CsvRun :=
  let rc := resumeCompute fileRows resume_from
  let r := runCsv ev rc.1 (keyRange rc.2 max_scl)
  { existing := rc.1
    resumePoint := rc.2
    appendMode := fileRows.isSome && !rc.1.isEmpty
    rows := r.1
    fetched := r.2.1
    interrupted := r.2.2 }

/-! ### Concrete fixtures used to evaluate the embedding -/

/-- A page with no content and no query results. -/
def emptyDoc : Doc :=
  { pageText := "", h1Texts := [], affilBoxY := none, h2Elems := []
    selTexts := [], title := "", addrSpanText := none, addrSpans := [] }

/-- A page whose affiliation marker carries the sentinel value `0` and whose
main heading is the root federation entity. -/
def docSentinel : Doc :=
  { emptyDoc with
    pageText := "N°affiliation: 0"
    h1Texts := ["CLUB FEDERATION FRANCAISE DE FOOTBALL"] }

/-- A page where the only name candidate, offered to the proximity
strategy as the h2 directly above the affiliation element, is
`CLUB LIGUE ALSACE`. -/
def docProxLigue : Doc :=
  { emptyDoc with
    pageText := "N°affiliation: 6504"
    affilBoxY := some 400
    h2Elems := [(some 200, "CLUB LIGUE ALSACE")] }

/-- A page whose only h1 is the six-letter single word `ABCDEF`. -/
def docSingleWord : Doc := { emptyDoc with h1Texts := ["ABCDEF"] }

/-- A page whose only name source is an all-digit page title. -/
def docDigitsTitle : Doc := { emptyDoc with title := "123456 | Site" }

/-- A concrete extracted club used by the driver fixtures. -/
def clubW : ClubData :=
  { nom := "FC TEST UN", numero_affiliation := some "123"
    email := some "a@b.fr", telephone := some "0123456", adresse := none
    url_detail := some "u", email_officiel := none
    email_principal := some "a@b.fr" }

/-- A per-key oracle: key 2 finds a club, key 3 raises, key 4 is
interrupted, every other key is confirmed absent. -/
def evW : Nat → Ev := fun k =>
  if k = 2 then Ev.ok (some clubW)
  else if k = 3 then Ev.err
  else if k = 4 then Ev.intr
  else Ev.ok none

/-- An oracle on which every key is confirmed absent. -/
def evAbsent : Nat → Ev := fun _ => Ev.ok none

/-- A constant timing oracle. -/
def tmW : Nat → String := fun _ => "0.10"

/-- A prior overwrite-mode file: keys 7 and 2 (the row for 2 is stale and
will be re-scraped). -/
def priorW : List Row :=
  [{ scl := "7", nom := "OLD SEVEN", numero_affiliation := "9", email := ""
     telephone := "", adresse := "", url_detail := "", temps_extraction := "0.2" },
   { scl := "2", nom := "STALE TWO", numero_affiliation := "1", email := ""
     telephone := "", adresse := "", url_detail := "", temps_extraction := "0.3" }]

/-- A prior append-mode file containing keys 1, 2 and 5. -/
def priorC : List RowC :=
  [{ scl := "1", nom := "A CLUB ONE", numero_affiliation := "1", email := ""
     telephone := "", adresse := "", url_detail := "" },
   { scl := "2", nom := "", numero_affiliation := "", email := ""
     telephone := "", adresse := "", url_detail := "" },
   { scl := "5", nom := "A CLUB FIVE", numero_affiliation := "5", email := ""
     telephone := "", adresse := "", url_detail := "" }]

/-! ### Helper lemmas: substrings -/

theorem containsSeq_iff_infixOf (n : Chars) :
    ∀ h : Chars, containsSeq n h = true ↔ n <:+: h := by
  intro h
  induction h with
  | nil =>
    simp [containsSeq, List.isEmpty_iff, List.infix_nil]
  | cons c t ih =>
    simp only [containsSeq, Bool.or_eq_true, List.isPrefixOf_iff_prefix, ih,
      List.infix_cons_iff]

theorem containsSeq_trans {a b c : Chars} (h1 : containsSeq a b = true)
    (h2 : containsSeq b c = true) : containsSeq a c = true := by
  rw [containsSeq_iff_infixOf] at h1 h2 ⊢
  exact h1.trans h2

/-! ### Helper lemmas: the matcher -/

theorem matchSeq_some {α : Type} (k : Chars → Option α) :
    ∀ (ps : List PatElem) (s : Chars) (r : α),
      matchSeq k ps s = some r → ∃ s', k s' = some r := by
  intro ps
  induction ps with
  | nil => intro s r h; exact ⟨s, h⟩
  | cons e rest ih =>
    intro s r h
    cases e with
    | lit t =>
      simp only [matchSeq] at h
      by_cases hp : ciPre t.toList s
      · rw [if_pos hp] at h
        exact ih _ _ h
      · rw [if_neg hp] at h
        exact absurd h (by simp)
    | cls p lo hi lz =>
      simp only [matchSeq] at h
      obtain ⟨n, _, hn⟩ := List.exists_of_findSome?_eq_some h
      exact ih _ _ hn

theorem runLen_le (p : Char → Bool) : ∀ s : Chars, runLen p s ≤ s.length := by
  intro s
  induction s with
  | nil => simp [runLen]
  | cons c t ih =>
    simp only [runLen, List.length_cons]
    by_cases hc : p c
    · rw [if_pos hc]; omega
    · rw [if_neg hc]; omega

theorem counts_mem {lo m n : Nat} {lz : Bool} (h : n ∈ counts lo m lz) :
    lo ≤ n ∧ n ≤ m := by
  unfold counts at h
  have hmem : n ∈ List.range' lo (m + 1 - lo) := by
    cases lz with
    | true => simpa using h
    | false => simpa [List.mem_reverse] using h
  rw [List.mem_range'_1] at hmem
  omega

/-- For the affiliation pattern, the captured group is a non-empty digit
run: `\d+` consumes at least one character. -/
theorem matchAtF_affil_cap_ne_nil {s : Chars} {r : Chars × Chars}
    (h : matchAtF affilPat s = some r) : r.1 ≠ [] := by
  unfold matchAtF at h
  obtain ⟨s1, h1⟩ := matchSeq_some _ _ _ _ h
  simp only [affilPat] at h1
  simp only [matchSeq] at h1
  obtain ⟨n, hn, h2⟩ := List.exists_of_findSome?_eq_some h1
  obtain ⟨hlo, hhi⟩ := counts_mem hn
  have hle : n ≤ s1.length := le_trans hhi (runLen_le _ s1)
  rw [Option.some.injEq] at h2
  have hfst : r.1 = List.take (s1.length - (List.drop n s1).length) s1 := by
    rw [← h2]
  rw [hfst]
  have hnn : s1.length - (List.drop n s1).length = n := by
    simp only [List.length_drop]
    exact Nat.sub_sub_self hle
  rw [hnn]
  intro hnil
  have hlen := congrArg List.length hnil
  rw [List.length_take, Nat.min_eq_left hle] at hlen
  simp only [List.length_nil] at hlen
  omega

theorem searchFrom_affil_ne_nil :
    ∀ {s cap : Chars}, searchFrom affilPat s = some cap → cap ≠ [] := by
  intro s
  induction s with
  | nil =>
    intro cap h
    rw [show searchFrom affilPat [] = none from rfl] at h
    exact absurd h (by simp)
  | cons c t ih =>
    intro cap h
    simp only [searchFrom] at h
    cases hm : matchAtF affilPat (c :: t) with
    | some r =>
      rw [hm] at h
      rw [Option.some.injEq] at h
      subst h
      exact matchAtF_affil_cap_ne_nil hm
    | none =>
      rw [hm] at h
      exact ih h

/-! ### Helper lemmas: the overwrite-mode map -/

theorem getRow_dinsert_self :
    ∀ (m : List (Nat × Row)) (k : Nat) (v : Row),
      getRow (dinsert m k v) k = some v := by
  intro m
  induction m with
  | nil => intro k v; simp [dinsert, getRow]
  | cons p t ih =>
    intro k v
    obtain ⟨k1, v1⟩ := p
    by_cases hk : k1 = k
    · simp [dinsert, if_pos hk, getRow]
    · simp only [dinsert, if_neg hk, getRow]
      rw [if_neg (fun hh => hk hh.symm)]
      exact ih k v

theorem getRow_dinsert_ne :
    ∀ (m : List (Nat × Row)) (k k' : Nat) (v : Row), k' ≠ k →
      getRow (dinsert m k v) k' = getRow m k' := by
  intro m
  induction m with
  | nil => intro k k' v hne; simp [dinsert, getRow, if_neg hne]
  | cons p t ih =>
    intro k k' v hne
    obtain ⟨k1, v1⟩ := p
    by_cases hk : k1 = k
    · subst hk
      simp [dinsert, getRow, if_neg hne]
    · simp only [dinsert, if_neg hk, getRow]
      by_cases hk' : k' = k1
      · rw [if_pos hk', if_pos hk']
      · rw [if_neg hk', if_neg hk']
        exact ih k k' v hne

theorem mem_keys_dinsert :
    ∀ (m : List (Nat × Row)) (k : Nat) (v : Row) (a : Nat),
      a ∈ (dinsert m k v).map Prod.fst ↔ a ∈ m.map Prod.fst ∨ a = k := by
  intro m
  induction m with
  | nil => intro k v a; simp [dinsert]
  | cons p t ih =>
    intro k v a
    obtain ⟨k1, v1⟩ := p
    by_cases hk : k1 = k
    · simp only [dinsert]
      rw [if_pos hk]
      simp only [List.map_cons, List.mem_cons]
      rw [hk]
      tauto
    · simp only [dinsert]
      rw [if_neg hk]
      simp only [List.map_cons, List.mem_cons, ih]
      tauto

theorem nodup_keys_dinsert :
    ∀ (m : List (Nat × Row)) (k : Nat) (v : Row),
      (m.map Prod.fst).Nodup → ((dinsert m k v).map Prod.fst).Nodup := by
  intro m
  induction m with
  | nil => intro k v _; simp [dinsert]
  | cons p t ih =>
    intro k v hnd
    obtain ⟨k1, v1⟩ := p
    simp only [List.map_cons, List.nodup_cons] at hnd
    by_cases hk : k1 = k
    · simp only [dinsert]
      rw [if_pos hk]
      simp only [List.map_cons, List.nodup_cons]
      exact ⟨hk ▸ hnd.1, hnd.2⟩
    · simp only [dinsert]
      rw [if_neg hk]
      simp only [List.map_cons, List.nodup_cons]
      refine ⟨?_, ih k v hnd.2⟩
      intro hmem
      rw [mem_keys_dinsert] at hmem
      rcases hmem with h | h
      · exact hnd.1 h
      · exact hk h
theorem nodup_keys_loadExisting_aux :
    ∀ (rows : List Row) (m : List (Nat × Row)), (m.map Prod.fst).Nodup →
      (((rows.foldl (fun m r =>
          let key := strip r.scl.toList
          if key ≠ [] ∧ key.all Char.isDigit then dinsert m (natOfDigits key) r
          else m) m)).map Prod.fst).Nodup := by
  intro rows
  induction rows with
  | nil => intro m h; exact h
  | cons r rs ih =>
    intro m h
    simp only [List.foldl_cons]
    by_cases hc : strip r.scl.toList ≠ [] ∧ (strip r.scl.toList).all Char.isDigit
    · rw [if_pos hc]
      exact ih _ (nodup_keys_dinsert _ _ _ h)
    · rw [if_neg hc]
      exact ih _ h

theorem nodup_keys_loadExisting (rows : List Row) :
    ((loadExisting rows).map Prod.fst).Nodup := by
  unfold loadExisting
  exact nodup_keys_loadExisting_aux rows [] (by simp)

theorem stepKeys_frame (ev : Nat → Ev) (tm : Nat → String) :
    ∀ (ks : List Nat) (m : List (Nat × Row)) (k : Nat), k ∉ ks →
      getRow (stepKeys ev tm ks m) k = getRow m k := by
  intro ks
  induction ks with
  | nil => intro m k _; rfl
  | cons k1 kt ih =>
    intro m k hk
    simp only [List.mem_cons, not_or] at hk
    simp only [stepKeys]
    cases ev k1 with
    | intr => rfl
    | err => exact ih m k hk.2
    | ok c =>
      rw [ih _ k hk.2]
      exact getRow_dinsert_ne _ _ _ _ hk.1

theorem nodup_keys_stepKeys (ev : Nat → Ev) (tm : Nat → String) :
    ∀ (ks : List Nat) (m : List (Nat × Row)),
      (m.map Prod.fst).Nodup →
      ((stepKeys ev tm ks m).map Prod.fst).Nodup := by
  intro ks
  induction ks with
  | nil => intro m h; exact h
  | cons k1 kt ih =>
    intro m h
    simp only [stepKeys]
    cases ev k1 with
    | intr => exact h
    | err => exact ih m h
    | ok c => exact ih _ (nodup_keys_dinsert _ _ _ h)

theorem processedOk_subset (ev : Nat → Ev) :
    ∀ (ks : List Nat) (k : Nat), k ∈ processedOk ev ks → k ∈ ks := by
  intro ks
  induction ks with
  | nil => intro k h; exact absurd h (by simp [processedOk])
  | cons k1 kt ih =>
    intro k h
    simp only [processedOk] at h
    cases hev : ev k1 with
    | intr => rw [hev] at h; exact absurd h (by simp)
    | err =>
      rw [hev] at h
      exact List.mem_cons_of_mem _ (ih k h)
    | ok c =>
      rw [hev] at h
      simp only [List.mem_cons] at h
      rcases h with h | h
      · simp [h]
      · exact List.mem_cons_of_mem _ (ih k h)

theorem stepKeys_processedOk (ev : Nat → Ev) (tm : Nat → String) :
    ∀ (ks : List Nat) (m : List (Nat × Row)) (k : Nat), ks.Nodup →
      k ∈ processedOk ev ks →
      getRow (stepKeys ev tm ks m) k = some (newRowFor ev tm k) := by
  intro ks
  induction ks with
  | nil => intro m k _ h; exact absurd h (by simp [processedOk])
  | cons k1 kt ih =>
    intro m k hnd h
    simp only [List.nodup_cons] at hnd
    simp only [processedOk] at h
    simp only [stepKeys]
    cases hev : ev k1 with
    | intr => rw [hev] at h; exact absurd h (by simp)
    | err =>
      rw [hev] at h
      exact ih m k hnd.2 h
    | ok c =>
      rw [hev] at h
      simp only [List.mem_cons] at h
      rcases h with h | h
      · subst h
        rw [stepKeys_frame ev tm kt _ k hnd.1]
        exact getRow_dinsert_self _ _ _
      · exact ih _ k hnd.2 h

theorem keyRange_nodup (a b : Nat) : (keyRange a b).Nodup :=
  List.nodup_range' a (b + 1 - a)

theorem mem_keyRange {a b k : Nat} : k ∈ keyRange a b ↔ a ≤ k ∧ k ≤ b := by
  unfold keyRange
  rw [List.mem_range'_1]
  omega

theorem getRow_eq_some_of_mem :
    ∀ (m : List (Nat × Row)) (k : Nat) (v : Row), (m.map Prod.fst).Nodup →
      (k, v) ∈ m → getRow m k = some v := by
  intro m
  induction m with
  | nil => intro k v _ h; exact absurd h (by simp)
  | cons p t ih =>
    intro k v hnd h
    obtain ⟨k1, v1⟩ := p
    simp only [List.map_cons, List.nodup_cons] at hnd
    simp only [List.mem_cons] at h
    rcases h with h | h
    · rw [Prod.mk.injEq] at h
      simp [getRow, h.1, h.2]
    · have hk : k ≠ k1 := by
        intro hkk
        subst hkk
        exact hnd.1 (List.mem_map.mpr ⟨(k, v), h, rfl⟩)
      simp only [getRow]
      rw [if_neg hk]
      exact ih k v hnd.2 h

theorem mem_of_getRow_eq_some :
    ∀ (m : List (Nat × Row)) (k : Nat) (v : Row),
      getRow m k = some v → (k, v) ∈ m := by
  intro m
  induction m with
  | nil => intro k v h; exact absurd h (by simp [getRow])
  | cons p t ih =>
    intro k v h
    obtain ⟨k1, v1⟩ := p
    simp only [getRow] at h
    by_cases hk : k = k1
    · rw [if_pos hk] at h
      rw [Option.some.injEq] at h
      simp [hk, h]
    · rw [if_neg hk] at h
      exact List.mem_cons_of_mem _ (ih k v h)

theorem getRow_eq_none_iff_not_mem_keys :
    ∀ (m : List (Nat × Row)) (k : Nat),
      getRow m k = none ↔ k ∉ m.map Prod.fst := by
  intro m
  induction m with
  | nil => intro k; simp [getRow]
  | cons p t ih =>
    intro k
    obtain ⟨k1, v1⟩ := p
    simp only [getRow, List.map_cons, List.mem_cons]
    by_cases hk : k = k1
    · rw [if_pos hk]
      simp [hk]
    · rw [if_neg hk]
      rw [ih]
      simp [hk]

/-- Two permuted association lists with duplicate-free keys agree on every
lookup. -/
theorem getRow_perm (m1 m2 : List (Nat × Row)) (hp : m1.Perm m2)
    (hnd : (m1.map Prod.fst).Nodup) (k : Nat) :
    getRow m1 k = getRow m2 k := by
  have hnd2 : (m2.map Prod.fst).Nodup := ((hp.map Prod.fst).nodup) hnd
  cases h1 : getRow m1 k with
  | some v =>
    have := mem_of_getRow_eq_some m1 k v h1
    exact (getRow_eq_some_of_mem m2 k v hnd2 (hp.mem_iff.mp this)).symm
  | none =>
    rw [getRow_eq_none_iff_not_mem_keys] at h1
    have : k ∉ m2.map Prod.fst := by
      intro hm
      exact h1 (((hp.map Prod.fst).mem_iff).mpr hm)
    exact ((getRow_eq_none_iff_not_mem_keys m2 k).mpr this).symm

instance : IsTotal (Nat × Row) (fun p q : Nat × Row => p.1 ≤ q.1) :=
  ⟨fun a b => Nat.le_total a.1 b.1⟩

instance : IsTrans (Nat × Row) (fun p q : Nat × Row => p.1 ≤ q.1) :=
  ⟨fun _ _ _ h1 h2 => Nat.le_trans h1 h2⟩

theorem outputRows_perm (m : List (Nat × Row)) : (outputRows m).Perm m :=
  List.perm_insertionSort _ m

theorem outputRows_nodup_keys (m : List (Nat × Row))
    (hnd : (m.map Prod.fst).Nodup) :
    ((outputRows m).map Prod.fst).Nodup :=
  (((outputRows_perm m).symm.map Prod.fst).nodup) hnd

theorem outputRows_sorted_keys (m : List (Nat × Row))
    (hnd : (m.map Prod.fst).Nodup) :
    List.Sorted (· < ·) ((outputRows m).map Prod.fst) := by
  have hs : List.Sorted (fun p q : Nat × Row => p.1 ≤ q.1) (outputRows m) :=
    List.sorted_insertionSort _ m
  have hle : List.Pairwise (· ≤ ·) ((outputRows m).map Prod.fst) :=
    List.Pairwise.map Prod.fst (fun _ _ h => h) hs
  have hne : List.Pairwise (· ≠ ·) ((outputRows m).map Prod.fst) :=
    outputRows_nodup_keys m hnd
  exact (hle.and hne).imp (fun h => Nat.lt_of_le_of_ne h.1 h.2)

theorem getRow_outputRows (m : List (Nat × Row))
    (hnd : (m.map Prod.fst).Nodup) (k : Nat) :
    getRow (outputRows m) k = getRow m k :=
  getRow_perm _ _ (outputRows_perm m)
    (outputRows_nodup_keys m hnd) k

/-! ### Helper lemmas: the append-mode loop -/

theorem runCsv_fetched_not_existing (ev : Nat → Ev) (existing : List Nat) :
    ∀ (ks : List Nat) (k : Nat),
      k ∈ (runCsv ev existing ks).2.1 → k ∉ existing := by
  intro ks
  induction ks with
  | nil => intro k h; exact absurd h (by simp [runCsv])
  | cons k1 kt ih =>
    intro k h
    simp only [runCsv] at h
    by_cases hm : k1 ∈ existing
    · rw [if_pos hm] at h
      exact ih k h
    · rw [if_neg hm] at h
      cases hev : ev k1 with
      | intr =>
        rw [hev] at h
        simp only [List.mem_singleton] at h
        subst h
        exact hm
      | err =>
        rw [hev] at h
        simp only [List.mem_cons] at h
        rcases h with h | h
        · subst h; exact hm
        · exact ih k h
      | ok c =>
        cases c with
        | none =>
          rw [hev] at h
          simp only [List.mem_cons] at h
          rcases h with h | h
          · subst h; exact hm
          · exact ih k h
        | some cd =>
          rw [hev] at h
          simp only [List.mem_cons] at h
          rcases h with h | h
          · subst h; exact hm
          · exact ih k h

/-- Every row the append driver writes is the complete record of a fetched
key whose extraction found a club. -/
theorem runCsv_rows_complete (ev : Nat → Ev) (existing : List Nat) :
    ∀ (ks : List Nat) (p : Nat × RowC), p ∈ (runCsv ev existing ks).1 →
      ∃ c, ev p.1 = .ok (some c) ∧ p.2 = clubRowC p.1 c ∧ p.1 ∉ existing := by
  intro ks
  induction ks with
  | nil => intro p h; exact absurd h (by simp [runCsv])
  | cons k1 kt ih =>
    intro p h
    simp only [runCsv] at h
    by_cases hm : k1 ∈ existing
    · rw [if_pos hm] at h
      exact ih p h
    · rw [if_neg hm] at h
      cases hev : ev k1 with
      | intr =>
        rw [hev] at h
        exact absurd h (by simp)
      | err =>
        rw [hev] at h
        exact ih p h
      | ok c =>
        cases c with
        | none =>
          rw [hev] at h
          exact ih p h
        | some cd =>
          rw [hev] at h
          simp only [List.mem_cons] at h
          rcases h with h | h
          · subst h
            exact ⟨cd, hev, rfl, hm⟩
          · exact ih p h

/-- Every fetched key whose extraction found a club has its complete row in
the output (nothing fetched before an interrupt is lost). -/
theorem runCsv_found_mem (ev : Nat → Ev) (existing : List Nat) :
    ∀ (ks : List Nat) (k : Nat) (c : ClubData),
      k ∈ (runCsv ev existing ks).2.1 → ev k = .ok (some c) →
      (k, clubRowC k c) ∈ (runCsv ev existing ks).1 := by
  intro ks
  induction ks with
  | nil => intro k c h _; exact absurd h (by simp [runCsv])
  | cons k1 kt ih =>
    intro k c h hev
    simp only [runCsv] at h ⊢
    by_cases hm : k1 ∈ existing
    · rw [if_pos hm] at h ⊢
      exact ih k c h hev
    · rw [if_neg hm] at h ⊢
      cases hev1 : ev k1 with
      | intr =>
        rw [hev1] at h
        have h2 : k ∈ [k1] := h
        simp only [List.mem_singleton] at h2
        subst h2
        rw [hev] at hev1
        exact absurd hev1 (by simp)
      | err =>
        rw [hev1] at h
        have h2 : k ∈ k1 :: (runCsv ev existing kt).2.1 := h
        simp only [List.mem_cons] at h2
        rcases h2 with h2 | h2
        · subst h2
          rw [hev] at hev1
          exact absurd hev1 (by simp)
        · exact ih k c h2 hev
      | ok c1 =>
        cases c1 with
        | none =>
          rw [hev1] at h
          have h2 : k ∈ k1 :: (runCsv ev existing kt).2.1 := h
          simp only [List.mem_cons] at h2
          rcases h2 with h2 | h2
          · subst h2
            rw [hev] at hev1
            exact absurd hev1 (by simp)
          · exact ih k c h2 hev
        | some cd =>
          rw [hev1] at h
          have h2 : k ∈ k1 :: (runCsv ev existing kt).2.1 := h
          simp only [List.mem_cons] at h2
          rcases h2 with h2 | h2
          · subst h2
            rw [hev] at hev1
            have hcd : cd = c := by
              injection hev1 with h1
              injection h1 with h3
              exact h3.symm
            subst hcd
            exact List.mem_cons_self _ _
          · exact List.mem_cons_of_mem _ (ih k c h2 hev)

/-! ### Helper lemmas: phone normalization -/

theorem phoneCat_some (pats : List Pattern) (text : Chars) (v : Chars)
    (h : phoneCat pats text = some v) :
    v.all Char.isDigit = true ∧ 6 ≤ v.length := by
  unfold phoneCat at h
  obtain ⟨pt, _, hpt⟩ := List.exists_of_findSome?_eq_some h
  have hpt2 : (match searchFrom pt text with
      | none => none
      | some raw =>
        let c := phoneClean raw
        if 6 ≤ c.length then some c else none) = some v := hpt
  cases hs : searchFrom pt text with
  | none =>
    rw [hs] at hpt2
    exact absurd hpt2 (by simp)
  | some raw =>
    rw [hs] at hpt2
    have hpt3 : (if 6 ≤ (phoneClean raw).length then some (phoneClean raw)
        else none) = some v := hpt2
    by_cases hc : 6 ≤ (phoneClean raw).length
    · rw [if_pos hc] at hpt3
      rw [Option.some.injEq] at hpt3
      subst hpt3
      refine ⟨?_, hc⟩
      unfold phoneClean
      rw [List.all_eq_true]
      intro x hx
      exact (List.mem_filter.mp hx).2
    · rw [if_neg hc] at hpt3
      exact absurd hpt3 (by simp)

theorem phoneIterCat_some (pats : List Pattern) (text : Chars) (v : Chars)
    (h : phoneIterCat pats text = some v) :
    v.all Char.isDigit = true ∧ 6 ≤ v.length := by
  unfold phoneIterCat at h
  obtain ⟨pt, _, hpt⟩ := List.exists_of_findSome?_eq_some h
  have hpt2 : (findAllCaps pt text).findSome? (fun raw =>
      let c := phoneClean raw
      if 6 ≤ c.length then some c else none) = some v := hpt
  obtain ⟨raw, _, hraw⟩ := List.exists_of_findSome?_eq_some hpt2
  have hraw2 : (if 6 ≤ (phoneClean raw).length then some (phoneClean raw)
      else none) = some v := hraw
  by_cases hc : 6 ≤ (phoneClean raw).length
  · rw [if_pos hc] at hraw2
    rw [Option.some.injEq] at hraw2
    subst hraw2
    refine ⟨?_, hc⟩
    unfold phoneClean
    rw [List.all_eq_true]
    intro x hx
    exact (List.mem_filter.mp hx).2
  · rw [if_neg hc] at hraw2
    exact absurd hraw2 (by simp)

/-! ### Claim theorems -/

/-- C5: the extracted email is chosen with fixed priority `Email principal`
over `Email officiel` over `Email autre`; a matching `principal` label wins,
otherwise a matching `officiel` label, otherwise the `autre` label, whose
comma-separated value is cut at its first token. -/
theorem extract_email_priority :
    (∀ (text v : Chars),
        emailCat emailPatternsPrincipal text = some v →
        extractEmail text = some v) ∧
    (∀ (text v : Chars),
        emailCat emailPatternsPrincipal text = none →
        emailCat emailPatternsOfficiel text = some v →
        extractEmail text = some v) ∧
    (∀ (text g : Chars),
        emailCat emailPatternsPrincipal text = none →
        emailCat emailPatternsOfficiel text = none →
        List.findSome? (fun pt => searchFrom pt text) emailPatternsAutre =
          some g →
        extractEmail text =
          some (strip ((strip g).takeWhile (fun c => c ≠ ',')))) := by
  refine ⟨?_, ?_, ?_⟩
  · intro text v h
    simp [extractEmail, h]
  · intro text v hp h
    simp [extractEmail, hp, h]
  · intro text g hp ho ha
    simp [extractEmail, emailAutreOf, hp, ho, ha]

/-- C5 witness: on markup holding an `officiel` and an `autre` label but no
`principal`, the `officiel` value is extracted. -/
theorem extract_email_priority_witness :
    extractEmail "Email officiel: off@x.fr Email autre: a@x.fr,b@y.fr".toList =
      some "off@x.fr".toList :=
  extract_email_priority.2.1
    "Email officiel: off@x.fr Email autre: a@x.fr,b@y.fr".toList
    "off@x.fr".toList (by decide) (by decide)

/-- C6: the extracted phone is chosen with fixed priority work, home,
mobile/personal, other (first acceptable `finditer` occurrence), with the
generic `Téléphone` / `Tel` label consulted only when all four labelled
categories found nothing; every returned value is all digits with at least
6 of them. -/
theorem extract_phone_priority_digits :
    (∀ (text v : Chars),
        phoneCat phonePatternsTravail text = some v →
        extractPhone text = some v) ∧
    (∀ (text v : Chars),
        phoneCat phonePatternsTravail text = none →
        phoneCat phonePatternsDomicile text = some v →
        extractPhone text = some v) ∧
    (∀ (text v : Chars),
        phoneCat phonePatternsTravail text = none →
        phoneCat phonePatternsDomicile text = none →
        phoneCat phonePatternsMobile text = some v →
        extractPhone text = some v) ∧
    (∀ (text v : Chars),
        phoneCat phonePatternsTravail text = none →
        phoneCat phonePatternsDomicile text = none →
        phoneCat phonePatternsMobile text = none →
        phoneIterCat phonePatternsAutre text = some v →
        extractPhone text = some v) ∧
    (∀ text : Chars,
        phoneCat phonePatternsTravail text = none →
        phoneCat phonePatternsDomicile text = none →
        phoneCat phonePatternsMobile text = none →
        phoneIterCat phonePatternsAutre text = none →
        extractPhone text = phoneCat phonePatternsGeneric text) ∧
    (∀ (text v : Chars), extractPhone text = some v →
        v.all Char.isDigit = true ∧ 6 ≤ v.length) := by
  refine ⟨?_, ?_, ?_, ?_, ?_, ?_⟩
  · intro text v h
    simp [extractPhone, h]
  · intro text v ht h
    simp [extractPhone, ht, h]
  · intro text v ht hd h
    simp [extractPhone, ht, hd, h]
  · intro text v ht hd hm h
    simp [extractPhone, ht, hd, hm, h]
  · intro text ht hd hm ha
    simp [extractPhone, ht, hd, hm, ha]
  · intro text v h
    simp only [extractPhone] at h
    cases ht : phoneCat phonePatternsTravail text with
    | some w =>
      rw [ht] at h
      simp at h
      subst h
      exact phoneCat_some _ _ _ ht
    | none =>
      rw [ht] at h
      cases hd : phoneCat phonePatternsDomicile text with
      | some w =>
        rw [hd] at h
        simp at h
        subst h
        exact phoneCat_some _ _ _ hd
      | none =>
        rw [hd] at h
        cases hm : phoneCat phonePatternsMobile text with
        | some w =>
          rw [hm] at h
          simp at h
          subst h
          exact phoneCat_some _ _ _ hm
        | none =>
          rw [hm] at h
          cases ha : phoneIterCat phonePatternsAutre text with
          | some w =>
            rw [ha] at h
            simp at h
            subst h
            exact phoneIterCat_some _ _ _ ha
          | none =>
            rw [ha] at h
            simp at h
            exact phoneCat_some _ _ _ h

/-- C6 witness: a `Téléphone domicile` label (with no work label) wins, and
its value is normalized to its 10 digits. -/
theorem extract_phone_priority_digits_witness :
    extractPhone "Téléphone domicile : 05.56.12.34.56".toList =
      some "0556123456".toList ∧
    ("0556123456".toList.all Char.isDigit = true ∧
      6 ≤ "0556123456".toList.length) :=
  ⟨extract_phone_priority_digits.2.1
      "Téléphone domicile : 05.56.12.34.56".toList "0556123456".toList
      (by decide) (by decide),
    extract_phone_priority_digits.2.2.2.2.2
      "Téléphone domicile : 05.56.12.34.56".toList "0556123456".toList
      (extract_phone_priority_digits.2.1
        "Téléphone domicile : 05.56.12.34.56".toList "0556123456".toList
        (by decide) (by decide))⟩

/-- C3: the engine returns `None` exactly when the markup has no
affiliation-number marker or no name candidate is accepted; when a marker
is present and a name is accepted it returns a club carrying them — also
when the marker's numeric value is the sentinel `0`. -/
theorem extract_club_notfound_iff :
    (∀ (d : Doc) (scl : Nat) (base : String),
        extract_club_by_scl d scl base = none ↔
          searchFrom affilPat d.pageText.toList = none ∨ deriveName d = none) ∧
    (∀ (d : Doc) (scl : Nat) (base : String) (cap nom : Chars),
        searchFrom affilPat d.pageText.toList = some cap →
        deriveName d = some nom →
        ∃ c, extract_club_by_scl d scl base = some c ∧
          c.numero_affiliation = some (String.mk cap) ∧
          c.nom = String.mk nom) := by
  have hpos : ∀ (d : Doc) (scl : Nat) (base : String) (cap nom : Chars),
      searchFrom affilPat d.pageText.toList = some cap →
      deriveName d = some nom →
      ∃ c, extract_club_by_scl d scl base = some c ∧
        c.numero_affiliation = some (String.mk cap) ∧
        c.nom = String.mk nom := by
    intro d scl base cap nom hs hd
    have hcap : cap ≠ [] := searchFrom_affil_ne_nil hs
    by_cases h0 : String.mk cap = "0"
    · simp only [extract_club_by_scl, hs, hd, Option.map_some', h0]
      simp
    · have hne : ¬(String.mk cap = "") := by
        intro hh
        apply hcap
        have := congrArg String.data hh
        simpa using this
      simp only [extract_club_by_scl, hs, hd, Option.map_some', if_neg h0,
        if_neg hne]
      simp
  constructor
  · intro d scl base
    constructor
    · intro hnone
      by_contra hcon
      push_neg at hcon
      obtain ⟨h1, h2⟩ := hcon
      obtain ⟨cap, hcap⟩ := Option.ne_none_iff_exists'.mp h1
      obtain ⟨nom, hnom⟩ := Option.ne_none_iff_exists'.mp h2
      obtain ⟨c, hc, _⟩ := hpos d scl base cap nom hcap hnom
      rw [hnone] at hc
      exact absurd hc (by simp)
    · intro h
      rcases h with h | h
      · simp only [extract_club_by_scl, h, Option.map_none']
      · cases hs : searchFrom affilPat d.pageText.toList with
        | none => simp only [extract_club_by_scl, hs, Option.map_none']
        | some cap =>
          simp only [extract_club_by_scl, hs, h, Option.map_some',
            Option.map_none']
  · exact hpos

/-- C3 witness: a page whose marker value is the sentinel `0` with an
accepted heading yields a found club with that marker and name. -/
theorem extract_club_notfound_iff_witness :
    ∃ c, extract_club_by_scl docSentinel 5 "https://gironde.fff.fr" = some c ∧
      c.numero_affiliation = some (String.mk "0".toList) ∧
      c.nom = String.mk "CLUB FEDERATION FRANCAISE DE FOOTBALL".toList :=
  extract_club_notfound_iff.2 docSentinel 5 "https://gironde.fff.fr"
    "0".toList "CLUB FEDERATION FRANCAISE DE FOOTBALL".toList
    (by decide) (by decide)

/-! ### Helper lemmas: strategy acceptance -/

theorem strat1_sound (d : Doc) (t : Chars) (h : strat1 d = some t) :
    acceptH1 t = true := by
  unfold strat1 at h
  obtain ⟨s, _, hsome⟩ := List.exists_of_findSome?_eq_some h
  have hsome2 : (if acceptH1 (strip s.toList) then some (strip s.toList)
      else none) = some t := hsome
  by_cases hc : acceptH1 (strip s.toList)
  · rw [if_pos hc] at hsome2
    rw [Option.some.injEq] at hsome2
    subst hsome2
    exact hc
  · rw [if_neg hc] at hsome2
    exact absurd hsome2 (by simp)

theorem strat2_sound (p : String) (t : Chars) (h : strat2 p = some t) :
    accept2 t = true := by
  unfold strat2 at h
  obtain ⟨pt, _, hsome⟩ := List.exists_of_findSome?_eq_some h
  have hsome2 : (match searchFrom pt p.toList with
      | none => none
      | some g =>
        let q := strip g
        if accept2 q then some q else none) = some t := hsome
  cases hs : searchFrom pt p.toList with
  | none =>
    rw [hs] at hsome2
    exact absurd hsome2 (by simp)
  | some g =>
    rw [hs] at hsome2
    have hsome3 : (if accept2 (strip g) then some (strip g) else none) =
        some t := hsome2
    by_cases hc : accept2 (strip g)
    · rw [if_pos hc] at hsome3
      rw [Option.some.injEq] at hsome3
      subst hsome3
      exact hc
    · rw [if_neg hc] at hsome3
      exact absurd hsome3 (by simp)

theorem stratProx_sound (d : Doc) (t : Chars) (h : stratProx d = some t) :
    acceptProx t = true := by
  unfold stratProx at h
  cases hy : d.affilBoxY with
  | none => rw [hy] at h; exact absurd h (by simp)
  | some ay =>
    rw [hy] at h
    have h2 : (match closestH2Go ay d.h2Elems none with
        | none => none
        | some r =>
          let tc := strip r.2.toList
          if acceptProx tc then some tc else none) = some t := h
    cases hcl : closestH2Go ay d.h2Elems none with
    | none => rw [hcl] at h2; exact absurd h2 (by simp)
    | some r =>
      rw [hcl] at h2
      have h3 : (if acceptProx (strip r.2.toList) then some (strip r.2.toList)
          else none) = some t := h2
      by_cases hc : acceptProx (strip r.2.toList)
      · rw [if_pos hc] at h3
        rw [Option.some.injEq] at h3
        subst h3
        exact hc
      · rw [if_neg hc] at h3
        exact absurd h3 (by simp)

theorem stratH2_sound (d : Doc) (t : Chars) (h : stratH2 d = some t) :
    acceptH2 t = true := by
  unfold stratH2 at h
  obtain ⟨e, _, hsome⟩ := List.exists_of_findSome?_eq_some h
  have hsome2 : (if acceptH2 (strip e.2.toList) then some (strip e.2.toList)
      else none) = some t := hsome
  by_cases hc : acceptH2 (strip e.2.toList)
  · rw [if_pos hc] at hsome2
    rw [Option.some.injEq] at hsome2
    subst hsome2
    exact hc
  · rw [if_neg hc] at hsome2
    exact absurd hsome2 (by simp)

theorem stratSel_sound (d : Doc) (t : Chars) (h : stratSel d = some t) :
    acceptSel t = true := by
  unfold stratSel at h
  obtain ⟨elems, _, hsome⟩ := List.exists_of_findSome?_eq_some h
  have hsome1 : elems.findSome? (fun s =>
      let q := strip s.toList
      if acceptSel q then some q else none) = some t := hsome
  obtain ⟨s, _, hsome2⟩ := List.exists_of_findSome?_eq_some hsome1
  have hsome3 : (if acceptSel (strip s.toList) then some (strip s.toList)
      else none) = some t := hsome2
  by_cases hc : acceptSel (strip s.toList)
  · rw [if_pos hc] at hsome3
    rw [Option.some.injEq] at hsome3
    subst hsome3
    exact hc
  · rw [if_neg hc] at hsome3
    exact absurd hsome3 (by simp)

theorem stratTitle_sound (d : Doc) (t : Chars) (h : stratTitle d = some t) :
    acceptTitle t = true := by
  unfold stratTitle at h
  by_cases hne : d.title ≠ ""
  · rw [if_pos hne] at h
    have h2 : (if acceptTitle (strip (d.title.toList.takeWhile
        (fun c => !(c = '|' || c = '-')))) then
          some (strip (d.title.toList.takeWhile (fun c => !(c = '|' || c = '-'))))
        else none) = some t := h
    by_cases hc : acceptTitle (strip (d.title.toList.takeWhile
        (fun c => !(c = '|' || c = '-'))))
    · rw [if_pos hc] at h2
      rw [Option.some.injEq] at h2
      subst h2
      exact hc
    · rw [if_neg hc] at h2
      exact absurd h2 (by simp)
  · rw [if_neg hne] at h
    exact absurd h (by simp)

/-- C4 counterexample: the claim says a candidate containing `club ligue`
is never excluded by any strategy, but the proximity strategy's word list
contains `ligue` with no `club ligue` rescue: the candidate
`CLUB LIGUE ALSACE`, offered as the h2 directly above the affiliation
element, is excluded and the strategy yields nothing. -/
theorem name_exclusion_claim_cex :
    containsSeq "club ligue".toList (lowerL "CLUB LIGUE ALSACE".toList) =
      true ∧
    exclProx (lowerL "CLUB LIGUE ALSACE".toList) = true ∧
    stratProx docProxLigue = none := by decide

/-- C4 (amended): in the structural h1 strategy a candidate containing
`club ligue` is never excluded, and one containing `district de` without
`club district` (and without the rescue phrase) is excluded; `ligue` is a
substring of `club ligue`, and in the proximity, h2-scan and
fallback-selector strategies any candidate containing `ligue` — hence any
containing `club ligue` — is excluded, as is one containing `district de`
without `club district`; the spec's concrete examples hold in the h1
strategy. -/
theorem name_exclusion_per_strategy :
    (∀ t : Chars, containsSeq "club ligue".toList t = true →
        exclH1 t = false) ∧
    (∀ t : Chars, containsSeq "district de".toList t = true →
        containsSeq "club district".toList t = false →
        containsSeq "club ligue".toList t = false → exclH1 t = true) ∧
    (∀ t : Chars, containsSeq "club ligue".toList t = true →
        containsSeq "ligue".toList t = true) ∧
    (∀ t : Chars, containsSeq "ligue".toList t = true →
        exclProx t = true ∧ exclH2 t = true ∧ exclSel t = true) ∧
    (∀ t : Chars, containsSeq "district de".toList t = true →
        containsSeq "club district".toList t = false →
        exclProx t = true ∧ exclH2 t = true ∧ exclSel t = true) ∧
    (acceptH1 "CLUB DISTRICT GERS".toList = true ∧
      acceptH1 "CLUB LIGUE ALSACE".toList = true ∧
      exclH1 (lowerL "DISTRICT DE LA GIRONDE".toList) = true ∧
      acceptH1 "DISTRICT DE LA GIRONDE".toList = false) := by
  refine ⟨?_, ?_, ?_, ?_, ?_, by decide⟩
  · intro t h
    simp only [exclH1, h]
    rfl
  · intro t h1 h2 h3
    simp only [exclH1, h1, h2, h3, Bool.not_false, Bool.and_true,
      Bool.or_true]
    rfl
  · intro t h
    exact containsSeq_trans (by decide) h
  · intro t h
    have hany : ∀ ws : List String, "ligue" ∈ ws →
        ws.any (fun w => containsSeq w.toList t) = true := by
      intro ws hmem
      rw [List.any_eq_true]
      exact ⟨"ligue", hmem, h⟩
    refine ⟨?_, ?_, ?_⟩
    · have ha := hany excludedWordsProx (by decide)
      simp only [exclProx, ha, ite_self]
    · have ha := hany excludedWordsH2 (by decide)
      simp only [exclH2, ha, Bool.true_or]
    · have ha := hany excludedWordsSel (by decide)
      simp only [exclSel, ha, Bool.true_or]
  · intro t h1 h2
    refine ⟨?_, ?_, ?_⟩
    · simp only [exclProx, h1, h2, Bool.or_true, Bool.not_false,
        Bool.and_true]
      rfl
    · simp only [exclH2, h1, h2, Bool.not_false, Bool.and_true,
        Bool.or_true]
    · simp only [exclSel, h1, h2, Bool.not_false, Bool.and_true,
        Bool.or_true]

/-- C4 witness: the general parts applied to the lowercased concrete
candidates. -/
theorem name_exclusion_per_strategy_witness :
    exclH1 (lowerL "CLUB LIGUE ALSACE".toList) = false ∧
    exclProx (lowerL "CLUB LIGUE ALSACE".toList) = true ∧
    exclProx (lowerL "DISTRICT DE LA MOSELLE".toList) = true :=
  ⟨name_exclusion_per_strategy.1 _ (by decide),
    (name_exclusion_per_strategy.2.2.2.1 _
      (name_exclusion_per_strategy.2.2.1 _ (by decide))).1,
    (name_exclusion_per_strategy.2.2.2.2.1 _ (by decide) (by decide)).1⟩

/-- C7 counterexample: the h1 strategy accepts the six-character single
word `ABCDEF` (no multi-word / longer-than-8 condition there), and the
page-title fallback accepts `123456`, which contains no letter. -/
theorem name_plausibility_claim_cex :
    deriveName docSingleWord = some "ABCDEF".toList ∧
    wordCount "ABCDEF".toList = 1 ∧
    "ABCDEF".toList.length = 6 ∧
    stratTitle docDigitsTitle = some "123456".toList ∧
    "123456".toList.any frAlpha = false := by decide

/-- C7 (amended): the full plausibility test — length in (5, 100), at
least one letter, and multi-word or longer than 8 — holds for the
textual-pattern, proximity, h2-scan and fallback-selector strategies; the
structural h1 strategy checks only the length bounds and the letter
requirement (no multi-word condition), and the page-title fallback checks
only that the length exceeds 5. -/
theorem name_plausibility_per_strategy :
    (∀ (d : Doc) (t : Chars), strat1 d = some t →
        5 < t.length ∧ t.length < 100 ∧ t.any frAlpha = true) ∧
    (∀ (p : String) (t : Chars), strat2 p = some t →
        5 < t.length ∧ t.length < 100 ∧ t.any frAlpha = true ∧
          (1 < wordCount t ∨ 8 < t.length)) ∧
    (∀ (d : Doc) (t : Chars), stratProx d = some t →
        5 < t.length ∧ t.length < 100 ∧ t.any frAlpha = true ∧
          (1 < wordCount t ∨ 8 < t.length)) ∧
    (∀ (d : Doc) (t : Chars), stratH2 d = some t →
        5 < t.length ∧ t.length < 100 ∧ t.any frAlpha = true ∧
          (1 < wordCount t ∨ 8 < t.length)) ∧
    (∀ (d : Doc) (t : Chars), stratSel d = some t →
        5 < t.length ∧ t.length < 100 ∧ t.any frAlpha = true ∧
          (1 < wordCount t ∨ 8 < t.length)) ∧
    (∀ (d : Doc) (t : Chars), stratTitle d = some t → 5 < t.length) := by
  refine ⟨?_, ?_, ?_, ?_, ?_, ?_⟩
  · intro d t h
    have hc := strat1_sound d t h
    simp only [acceptH1, Bool.and_eq_true, decide_eq_true_eq] at hc
    exact ⟨hc.1.1.1.2, hc.1.1.2, hc.2⟩
  · intro p t h
    have hc := strat2_sound p t h
    simp only [accept2, Bool.and_eq_true, Bool.or_eq_true,
      decide_eq_true_eq] at hc
    exact ⟨hc.1.1.1.1, hc.1.1.1.2, hc.1.2, hc.2⟩
  · intro d t h
    have hc := stratProx_sound d t h
    simp only [acceptProx, Bool.and_eq_true, Bool.or_eq_true,
      decide_eq_true_eq] at hc
    exact ⟨hc.1.1.1.1.2, hc.1.1.1.2, hc.1.2, hc.2⟩
  · intro d t h
    have hc := stratH2_sound d t h
    simp only [acceptH2, Bool.and_eq_true, Bool.or_eq_true,
      decide_eq_true_eq] at hc
    exact ⟨hc.1.1.1.1.2, hc.1.1.1.2, hc.1.2, hc.2⟩
  · intro d t h
    have hc := stratSel_sound d t h
    simp only [acceptSel, Bool.and_eq_true, Bool.or_eq_true,
      decide_eq_true_eq] at hc
    exact ⟨hc.1.1.1.1.2, hc.1.1.1.2, hc.1.2, hc.2⟩
  · intro d t h
    have hc := stratTitle_sound d t h
    simp only [acceptTitle, Bool.and_eq_true, decide_eq_true_eq] at hc
    exact hc.1.1

/-- C7 witness: the h1 strategy on the sentinel page accepts the heading,
which indeed satisfies the h1-strategy conditions. -/
theorem name_plausibility_per_strategy_witness :
    5 < "CLUB FEDERATION FRANCAISE DE FOOTBALL".toList.length ∧
    "CLUB FEDERATION FRANCAISE DE FOOTBALL".toList.length < 100 ∧
    "CLUB FEDERATION FRANCAISE DE FOOTBALL".toList.any frAlpha = true :=
  name_plausibility_per_strategy.1 docSentinel
    "CLUB FEDERATION FRANCAISE DE FOOTBALL".toList (by decide)

/-- A key whose every iteration raises (or that is never reached) keeps its
prior map entry: only `ok` iterations write. -/
theorem stepKeys_err_frame (ev : Nat → Ev) (tm : Nat → String) :
    ∀ (ks : List Nat) (m : List (Nat × Row)) (k : Nat), ev k = .err →
      getRow (stepKeys ev tm ks m) k = getRow m k := by
  intro ks
  induction ks with
  | nil => intro m k _; rfl
  | cons k1 kt ih =>
    intro m k hk
    simp only [stepKeys]
    cases hev : ev k1 with
    | intr => rfl
    | err => exact ih m k hk
    | ok c =>
      rw [ih _ k hk]
      have hne : k ≠ k1 := by
        intro hh
        subst hh
        rw [hk] at hev
        exact absurd hev (by simp)
      exact getRow_dinsert_ne _ _ _ _ hne

/-- C1: re-running overwrite-by-key mode over `[a, b]` rewrites the store
with a header, duplicate-free keys in strictly ascending order, the fresh
row for every key of the range whose processing completed, and the
previously stored row for every key outside the range. -/
theorem scrape_range_overwrite_by_key (prior : List Row) (a b : Nat)
    (ev : Nat → Ev) (tm : Nat → String) :
    (scrape_range prior a b ev tm).1 = fieldNames ∧
    ((scrape_range prior a b ev tm).2.map Prod.fst).Nodup ∧
    List.Sorted (· < ·) ((scrape_range prior a b ev tm).2.map Prod.fst) ∧
    (∀ k, k ∈ processedOk ev (keyRange a b) →
      getRow (scrape_range prior a b ev tm).2 k =
        some (newRowFor ev tm k)) ∧
    (∀ k, k ∉ keyRange a b →
      getRow (scrape_range prior a b ev tm).2 k =
        getRow (loadExisting prior) k) := by
  have hnd0 : ((loadExisting prior).map Prod.fst).Nodup :=
    nodup_keys_loadExisting prior
  have hndm : ((stepKeys ev tm (keyRange a b)
      (loadExisting prior)).map Prod.fst).Nodup :=
    nodup_keys_stepKeys ev tm _ _ hnd0
  simp only [scrape_range]
  refine ⟨trivial, ?_, ?_, ?_, ?_⟩
  · exact outputRows_nodup_keys _ hndm
  · exact outputRows_sorted_keys _ hndm
  · intro k hk
    rw [getRow_outputRows _ hndm]
    exact stepKeys_processedOk ev tm (keyRange a b) (loadExisting prior) k
      (keyRange_nodup a b) hk
  · intro k hk
    rw [getRow_outputRows _ hndm]
    exact stepKeys_frame ev tm _ _ k hk

/-- C1 witness: key 2 of the re-scraped range `[1, 5]` carries the fresh
row; key 7, outside the range, keeps its previously stored row. -/
theorem scrape_range_overwrite_by_key_witness :
    (2 ∈ processedOk evW (keyRange 1 5) ∧
      getRow (scrape_range priorW 1 5 evW tmW).2 2 =
        some (newRowFor evW tmW 2)) ∧
    (7 ∉ keyRange 1 5 ∧
      getRow (scrape_range priorW 1 5 evW tmW).2 7 =
        getRow (loadExisting priorW) 7) :=
  ⟨⟨by decide,
      (scrape_range_overwrite_by_key priorW 1 5 evW tmW).2.2.2.1 2 (by decide)⟩,
    ⟨by decide,
      (scrape_range_overwrite_by_key priorW 1 5 evW tmW).2.2.2.2 7 (by decide)⟩⟩

/-- C10: in overwrite-by-key mode an unexpected per-key exception leaves
the merged map without any entry for that key — the rewritten output keeps
the key's prior row if one existed and has no row otherwise — while a key
that cleanly returns not-found is overwritten with the empty placeholder. -/
theorem scrape_range_err_frame (prior : List Row) (a b : Nat)
    (ev : Nat → Ev) (tm : Nat → String) :
    (∀ k, ev k = .err →
      getRow (scrape_range prior a b ev tm).2 k =
        getRow (loadExisting prior) k) ∧
    (∀ k, k ∈ processedOk ev (keyRange a b) → ev k = .ok none →
      getRow (scrape_range prior a b ev tm).2 k =
        some (emptyRow k (tm k))) := by
  have hnd0 : ((loadExisting prior).map Prod.fst).Nodup :=
    nodup_keys_loadExisting prior
  have hndm : ((stepKeys ev tm (keyRange a b)
      (loadExisting prior)).map Prod.fst).Nodup :=
    nodup_keys_stepKeys ev tm _ _ hnd0
  simp only [scrape_range]
  constructor
  · intro k hk
    rw [getRow_outputRows _ hndm]
    exact stepKeys_err_frame ev tm _ _ k hk
  · intro k hk hev
    rw [getRow_outputRows _ hndm]
    have := stepKeys_processedOk ev tm (keyRange a b) (loadExisting prior) k
      (keyRange_nodup a b) hk
    rw [this]
    simp only [newRowFor, hev]

/-- C10 witness: key 3's extraction raised, so its entry equals the prior
store's (here: absent); key 1 cleanly returned not-found and carries the
empty placeholder. -/
theorem scrape_range_err_frame_witness :
    getRow (scrape_range priorW 1 5 evW tmW).2 3 =
      getRow (loadExisting priorW) 3 ∧
    getRow (scrape_range priorW 1 5 evW tmW).2 1 =
      some (emptyRow 1 (tmW 1)) :=
  ⟨(scrape_range_err_frame priorW 1 5 evW tmW).1 3 (by decide),
    (scrape_range_err_frame priorW 1 5 evW tmW).2 1 (by decide) (by decide)⟩

/-- C9: whatever the interruption point, everything processed before it is
in the durable output — the overwrite-mode rewrite carries every completed
key's row (`processedOk` stops at the interrupt), and the append-mode
output consists exactly of complete rows of found keys, every found
fetched key included; no partial record exists at row granularity. -/
theorem interrupt_flush :
    (∀ (prior : List Row) (a b : Nat) (ev : Nat → Ev) (tm : Nat → String)
        (k : Nat), k ∈ processedOk ev (keyRange a b) →
        (k, newRowFor ev tm k) ∈ (scrape_range prior a b ev tm).2) ∧
    (∀ (fileRows : Option (List RowC)) (max_scl resume_from : Nat)
        (ev : Nat → Ev) (p : Nat × RowC),
        p ∈ (scrape_all_to_csv fileRows max_scl resume_from ev).rows →
        ∃ c, ev p.1 = .ok (some c) ∧ p.2 = clubRowC p.1 c) ∧
    (∀ (fileRows : Option (List RowC)) (max_scl resume_from : Nat)
        (ev : Nat → Ev) (k : Nat) (c : ClubData),
        k ∈ (scrape_all_to_csv fileRows max_scl resume_from ev).fetched →
        ev k = .ok (some c) →
        (k, clubRowC k c) ∈
          (scrape_all_to_csv fileRows max_scl resume_from ev).rows) := by
  refine ⟨?_, ?_, ?_⟩
  · intro prior a b ev tm k hk
    have hnd0 : ((loadExisting prior).map Prod.fst).Nodup :=
      nodup_keys_loadExisting prior
    have hndm : ((stepKeys ev tm (keyRange a b)
        (loadExisting prior)).map Prod.fst).Nodup :=
      nodup_keys_stepKeys ev tm _ _ hnd0
    have hg : getRow (outputRows (stepKeys ev tm (keyRange a b)
        (loadExisting prior))) k = some (newRowFor ev tm k) := by
      rw [getRow_outputRows _ hndm]
      exact stepKeys_processedOk ev tm (keyRange a b) (loadExisting prior) k
        (keyRange_nodup a b) hk
    exact mem_of_getRow_eq_some _ _ _ hg
  · intro fileRows max_scl resume_from ev p hp
    have hp2 : p ∈ (runCsv ev (resumeCompute fileRows resume_from).1
        (keyRange (resumeCompute fileRows resume_from).2 max_scl)).1 := hp
    obtain ⟨c, h1, h2, _⟩ := runCsv_rows_complete ev _ _ p hp2
    exact ⟨c, h1, h2⟩
  · intro fileRows max_scl resume_from ev k c hk hev
    have hk2 : k ∈ (runCsv ev (resumeCompute fileRows resume_from).1
        (keyRange (resumeCompute fileRows resume_from).2 max_scl)).2.1 := hk
    exact runCsv_found_mem ev _ _ k c hk2 hev

/-- C9 witness: the oracle interrupts at key 4; key 2, processed before
the interrupt, is durably present in both drivers' outputs. -/
theorem interrupt_flush_witness :
    (2, newRowFor evW tmW 2) ∈ (scrape_range priorW 1 5 evW tmW).2 ∧
    (2, clubRowC 2 clubW) ∈ (scrape_all_to_csv none 5 1 evW).rows ∧
    (scrape_all_to_csv none 5 1 evW).interrupted = true :=
  ⟨interrupt_flush.1 priorW 1 5 evW tmW 2 (by decide),
    interrupt_flush.2.2 none 5 1 evW 2 clubW (by decide) (by decide),
    by decide⟩

/-- C2: with the default start key `1`, a readable prior output with keys
`ex` (maximum `listMax ex`) moves the resume point to `listMax ex + 1` and
none of those keys is fetched again; an explicit start key other than `1`
wins and the prior state is treated as empty. -/
theorem scrape_all_to_csv_resume :
    (∀ (rows : List RowC) (max_scl : Nat) (ev : Nat → Ev) (ex : List Nat),
        scanScls rows [] = (ex, true) → ex ≠ [] →
        (scrape_all_to_csv (some rows) max_scl 1 ev).resumePoint =
          listMax ex + 1 ∧
        (scrape_all_to_csv (some rows) max_scl 1 ev).existing = ex ∧
        (∀ k, k ∈ ex →
          k ∉ (scrape_all_to_csv (some rows) max_scl 1 ev).fetched)) ∧
    (∀ (fileRows : Option (List RowC)) (max_scl r : Nat) (ev : Nat → Ev),
        r ≠ 1 →
        (scrape_all_to_csv fileRows max_scl r ev).existing = [] ∧
        (scrape_all_to_csv fileRows max_scl r ev).resumePoint = r) := by
  constructor
  · intro rows max_scl ev ex h hne
    have hrc : resumeCompute (some rows) 1 = (ex, listMax ex + 1) := by
      unfold resumeCompute
      simp [h, hne]
    refine ⟨?_, ?_, ?_⟩
    · show (resumeCompute (some rows) 1).2 = listMax ex + 1
      rw [hrc]
    · show (resumeCompute (some rows) 1).1 = ex
      rw [hrc]
    · intro k hk hkf
      have hkf2 : k ∈ (runCsv ev (resumeCompute (some rows) 1).1
          (keyRange (resumeCompute (some rows) 1).2 max_scl)).2.1 := hkf
      have hnot := runCsv_fetched_not_existing ev _ _ k hkf2
      rw [hrc] at hnot
      exact hnot hk
  · intro fileRows max_scl r ev hr
    cases fileRows with
    | none => exact ⟨rfl, rfl⟩
    | some rows =>
      have hrc : resumeCompute (some rows) r = ([], r) := by
        unfold resumeCompute
        simp [hr]
      exact ⟨by show (resumeCompute (some rows) r).1 = []; rw [hrc],
        by show (resumeCompute (some rows) r).2 = r; rw [hrc]⟩

/-- C2 witness: a prior output with keys 1, 2, 5 (gaps at 3, 4) resumes at
6 and never re-fetches key 5; an explicit start key 5 empties the prior
state and wins. -/
theorem scrape_all_to_csv_resume_witness :
    (scrape_all_to_csv (some priorC) 7 1 evAbsent).resumePoint = 6 ∧
    5 ∉ (scrape_all_to_csv (some priorC) 7 1 evAbsent).fetched ∧
    (scrape_all_to_csv (some priorC) 9 5 evAbsent).existing = [] ∧
    (scrape_all_to_csv (some priorC) 9 5 evAbsent).resumePoint = 5 :=
  ⟨(scrape_all_to_csv_resume.1 priorC 7 evAbsent [5, 2, 1] (by decide)
      (by decide)).1,
    (scrape_all_to_csv_resume.1 priorC 7 evAbsent [5, 2, 1] (by decide)
      (by decide)).2.2 5 (by decide),
    (scrape_all_to_csv_resume.2 (some priorC) 9 5 evAbsent (by decide)).1,
    (scrape_all_to_csv_resume.2 (some priorC) 9 5 evAbsent (by decide)).2⟩

/-- C8 counterexample: in the append-mode batch driver a confirmed-absent
key produces no row at all — key 1 is fetched, extraction returns `None`,
and the run writes nothing — contradicting the claim that every processed
confirmed-absent key leaves an empty-field row. -/
theorem absence_row_claim_cex :
    1 ∈ (scrape_all_to_csv none 1 1 evAbsent).fetched ∧
    (scrape_all_to_csv none 1 1 evAbsent).rows = [] := by decide

/-- C8 (amended): only overwrite-by-key mode persists absence — a
completed confirmed-absent key gets a row with its key and empty data
fields; in append mode a confirmed-absent key contributes no row, so its
key never appears among the written rows and absence is indistinguishable
from never-attempted there. -/
theorem absence_row_per_mode :
    (∀ (prior : List Row) (a b : Nat) (ev : Nat → Ev) (tm : Nat → String)
        (k : Nat), k ∈ processedOk ev (keyRange a b) → ev k = .ok none →
        getRow (scrape_range prior a b ev tm).2 k =
          some (emptyRow k (tm k)) ∧
        (emptyRow k (tm k)).scl = toString k ∧
        (emptyRow k (tm k)).nom = "" ∧
        (emptyRow k (tm k)).numero_affiliation = "" ∧
        (emptyRow k (tm k)).email = "" ∧
        (emptyRow k (tm k)).telephone = "" ∧
        (emptyRow k (tm k)).adresse = "") ∧
    (∀ (fileRows : Option (List RowC)) (max_scl r : Nat) (ev : Nat → Ev)
        (k : Nat), ev k = .ok none →
        k ∉ (scrape_all_to_csv fileRows max_scl r ev).rows.map Prod.fst) := by
  constructor
  · intro prior a b ev tm k hk hev
    refine ⟨?_, rfl, rfl, rfl, rfl, rfl, rfl⟩
    have hnd0 : ((loadExisting prior).map Prod.fst).Nodup :=
      nodup_keys_loadExisting prior
    have hndm : ((stepKeys ev tm (keyRange a b)
        (loadExisting prior)).map Prod.fst).Nodup :=
      nodup_keys_stepKeys ev tm _ _ hnd0
    show getRow (outputRows (stepKeys ev tm (keyRange a b)
        (loadExisting prior))) k = some (emptyRow k (tm k))
    rw [getRow_outputRows _ hndm]
    rw [stepKeys_processedOk ev tm (keyRange a b) (loadExisting prior) k
      (keyRange_nodup a b) hk]
    simp only [newRowFor, hev]
  · intro fileRows max_scl r ev k hev hmem
    rw [List.mem_map] at hmem
    obtain ⟨p, hp, hfst⟩ := hmem
    have hp2 : p ∈ (runCsv ev (resumeCompute fileRows r).1
        (keyRange (resumeCompute fileRows r).2 max_scl)).1 := hp
    obtain ⟨c, h1, _, _⟩ := runCsv_rows_complete ev _ _ p hp2
    rw [hfst, hev] at h1
    exact absurd h1 (by simp)

/-- C8 witness: key 1 is confirmed absent; the overwrite-mode output holds
its empty placeholder row while the append-mode output has no row for it. -/
theorem absence_row_per_mode_witness :
    getRow (scrape_range priorW 1 5 evW tmW).2 1 =
      some (emptyRow 1 (tmW 1)) ∧
    1 ∉ (scrape_all_to_csv none 5 1 evW).rows.map Prod.fst :=
  ⟨(absence_row_per_mode.1 priorW 1 5 evW tmW 1 (by decide) (by decide)).1,
    absence_row_per_mode.2 none 5 1 evW 1 (by decide)⟩
